import Mathlib

/-!
Verification development for the WhatsApp appointment-confirmation service
(api-drg-app). Strings are modelled as lists of characters; every JavaScript
string operation used by the verified code paths is embedded explicitly.
-/

namespace DrgApp

/-- Strings as lists of characters. -/
abbrev Str := List Char

/-- ASCII decimal digit test (JS regex class [0-9] / \D complement). -/
def isDigitCh (c : Char) : Bool :=
  decide ('0' ≤ c) && decide (c ≤ '9')

/-- JS `s.replace(/\D/g, "")`: keep only ASCII digits. -/
def stripNonDigits (s : Str) : Str :=
  s.filter isDigitCh

/-- Whitespace set recognised by the embedding of JS `String.prototype.trim`
(ASCII: tab, LF, VT, FF, CR, space). -/
def isSpaceCh (c : Char) : Bool :=
  decide (c = ' ') || decide (c.toNat = 9) || decide (c.toNat = 10) ||
  decide (c.toNat = 11) || decide (c.toNat = 12) || decide (c.toNat = 13)

/-- JS `s.trim()`: drop leading and trailing whitespace. -/
def trimStr (s : Str) : Str :=
  ((s.dropWhile isSpaceCh).reverse.dropWhile isSpaceCh).reverse

/-- JS `s.startsWith(p)`. -/
def startsWith : Str → Str → Bool
  | [], _ => true
  | _ :: _, [] => false
  | p :: ps, c :: cs => decide (p = c) && startsWith ps cs

/-- JS `s.replace(/^0+/, "")`: drop leading zero characters. -/
def dropLeadingZeros (s : Str) : Str :=
  s.dropWhile (fun c => decide (c = '0'))

/-- JS `s.slice(-n)`: the last `n` characters (whole string when shorter). -/
def lastN (n : Nat) (s : Str) : Str :=
  s.drop (s.length - n)

/-- Substring occurrence test (SQL `LIKE '%pat%'`, JS `includes`). -/
def containsSubstr (s pat : Str) : Bool :=
  match s with
  | [] => decide (pat = [])
  | _ :: rest => startsWith pat s || containsSubstr rest pat

/-- All-digit test: embedding of the JS regex `^[0-9]+$` (at least one char,
every char a digit). -/
def isAllDigits (s : Str) : Bool :=
  decide (s ≠ []) && s.all isDigitCh

/-! ## Phone normalizer (src/utils/formatters.ts, formatPhoneForWhatsApp) -/

/-- `formatPhoneForWhatsApp` from src/utils/formatters.ts (the corrected
version): strip non-digits and leading zeros; a 13-digit number starting with
55 is returned as is; an 11-digit number gets 55 prepended; a 12-digit number
starting with 55 gets the mobile 9 inserted after the area code; anything else
is returned as the cleaned digits. -/
def formatPhoneForWhatsApp (phone : Str) : Str :=
  if phone = [] then []
  else
    let cleaned := dropLeadingZeros (stripNonDigits phone)
    if cleaned.length = 13 && startsWith "55".toList cleaned then
      cleaned
    else if cleaned.length = 11 then
      "55".toList ++ cleaned
    else if cleaned.length = 12 && startsWith "55".toList cleaned then
      let ddd := (cleaned.drop 2).take 2
      let number := cleaned.drop 4
      "55".toList ++ ddd ++ ('9' :: number)
    else
      cleaned

/-- `formatTime` from src/utils/formatters.ts: leave a string containing a
colon unchanged, insert a colon into an HHMM string, else return unchanged. -/
def formatTime (time : Str) : Str :=
  if time = [] then []
  else if time.contains ':' then time
  else if time.length = 4 then time.take 2 ++ (':' :: time.drop 2)
  else time

/-! ## Reply classifier (src/services/incomingMessageHandler.ts, part of
IncomingMessageHandler.handleMessage) -/

/-- The four classification outcomes of the incoming-reply handler. -/
inductive RAction
  | confirm
  | reschedule
  | fallback
  | ignore
  deriving DecidableEq, Repr

/-- Result of classifying a trimmed reply text: the action together with the
template type and target appointment status the handler assigns. -/
structure RClass where
  action : RAction
  templateType : Str
  statusToSet : Nat
  deriving DecidableEq, Repr

/-- The classification branch of `IncomingMessageHandler.handleMessage`
(corrected handler): trimmed text "1" confirms (status 6, template
"confirmar"), "2" reschedules (status 7, template "reagendar"), any other
all-digit text falls back, everything else is ignored; the defaults for
template type and status are the empty string and 0. -/
def classifyReply (cleanText : Str) : RClass :=
  if cleanText = "1".toList then
    ⟨.confirm, "confirmar".toList, 6⟩
  else if cleanText = "2".toList then
    ⟨.reschedule, "reagendar".toList, 7⟩
  else if isAllDigits cleanText then
    ⟨.fallback, [], 0⟩
  else
    ⟨.ignore, [], 0⟩

/-! ## Case-insensitive global replacement (JS `new RegExp(pat, "gi")` with a
literal pattern, used by QueueService.processTemplate and
formatConfirmationMessage) -/

/-- ASCII lower-casing (sufficient for the placeholder alphabet the templates
use; JS `toLowerCase` / the regex `i` flag). -/
def lowerCh (c : Char) : Char :=
  if 65 ≤ c.toNat && c.toNat ≤ 90 then Char.ofNat (c.toNat + 32) else c

/-- Case-insensitive character equality. -/
def ciEqCh (a b : Char) : Bool :=
  decide (lowerCh a = lowerCh b)

/-- Case-insensitive string equality. -/
def ciEqStr (a b : Str) : Bool :=
  decide (a.map lowerCh = b.map lowerCh)

/-- Does `s` start with a case-insensitive match of `pat`? -/
def ciStarts : Str → Str → Bool
  | [], _ => true
  | _ :: _, [] => false
  | p :: ps, c :: cs => ciEqCh p c && ciStarts ps cs

/-- Does `s` contain a case-insensitive occurrence of `pat`? -/
def occursCI (pat : Str) : Str → Bool
  | [] => ciStarts pat []
  | c :: rest => ciStarts pat (c :: rest) || occursCI pat rest

/-- JS GetSubstitution on a replacement string, for a regex with no capture
groups: "$$" inserts a dollar, "$&" the matched substring, a dollar followed
by a backtick (\x60) the part of the subject before the match, a dollar
followed by an apostrophe (\x27) the part after it; a dollar in any other
position, including "$n" digit references (the pattern has no capture
groups) and a trailing dollar, is literal. -/
def getSubstitution : Str → Str → Str → Str → Str
  | [], _, _, _ => []
  | [c], _, _, _ =>
    if c = '$' then ['$'] else [c]
  | c :: d :: rest2, matched, before, after =>
    if c = '$' then
      if d = '$' then '$' :: getSubstitution rest2 matched before after
      else if d = '&' then matched ++ getSubstitution rest2 matched before after
      else if d = '\x60' then before ++ getSubstitution rest2 matched before after
      else if d = '\x27' then after ++ getSubstitution rest2 matched before after
      else '$' :: d :: getSubstitution rest2 matched before after
    else c :: getSubstitution (d :: rest2) matched before after

/-- Scanner for global case-insensitive literal replacement: while `skip > 0`
the scanner is inside an already-replaced match and drops characters; at
`skip = 0` it either emits the replacement at a match (after GetSubstitution
with the matched text and the subject context, then skipping the rest of the
matched text) or copies one character.  `done` is the reversed subject
prefix already consumed, so `done.reverse` is the text before the current
position.  This is the leftmost, non-overlapping, left-to-right semantics of
JS `replace` with a `gi` regex whose pattern is a literal. -/
def raciGo (pat rep : Str) : Str → Nat → Str → Str
  | _, _, [] => []
  | done, Nat.succ k, c :: rest => raciGo pat rep (c :: done) k rest
  | done, 0, c :: rest =>
    if ciStarts pat (c :: rest) then
      getSubstitution rep ((c :: rest).take pat.length) done.reverse
          ((c :: rest).drop pat.length) ++
        raciGo pat rep (c :: done) (pat.length - 1) rest
    else c :: raciGo pat rep (c :: done) 0 rest

/-- JS `s.replace(new RegExp(pat, "gi"), rep)` for a literal pattern. -/
def replaceAllCI (s pat rep : Str) : Str :=
  raciGo pat rep [] 0 s

/-- No dollar sign in the string (GetSubstitution inserts it verbatim). -/
def noDollar (s : Str) : Bool :=
  s.all (fun c => decide (c ≠ '$'))

/-- The placeholder values handed to the template renderer. -/
structure TVals where
  nome : Str
  data : Str
  hora : Str
  procedimentos : Str
  deriving DecidableEq, Repr

/-- `QueueService.processTemplate`: global case-insensitive replacement of the
placeholders, iterating the variables object in insertion order
(nome, data, hora, procedimentos).  `formatConfirmationMessage` in
src/utils/formatters.ts chains the same four replacements in the same
order. -/
def processTemplate (template : Str) (v : TVals) : Str :=
  let p1 := replaceAllCI template "{nome}".toList v.nome
  let p2 := replaceAllCI p1 "{data}".toList v.data
  let p3 := replaceAllCI p2 "{hora}".toList v.hora
  replaceAllCI p3 "{procedimentos}".toList v.procedimentos

/-- The JS expression `procedures || "Consulta"` used to build the
`procedimentos` value: a missing or empty procedures field renders as the
default text. -/
def procOrDefault (p : Option Str) : Str :=
  match p with
  | none => "Consulta".toList
  | some s => if s = [] then "Consulta".toList else s

/-- Abstraction of `formatDate` (src/utils/formatters.ts): the source
formats the JS `Date` stored in the dates column as dd/mm/yyyy; here the
column is modelled as an abstract day number and its rendering as that
number's decimal digits, since no verified claim constrains the rendered
date text. -/
def formatDateModel (d : Nat) : Str :=
  Nat.toDigits 10 d

/-! ## Data model (tables of_schedules, all_patients, wa_templates, wa_queue,
wa_messages, whatsapp_sessions) -/

/-- Queue item status (enum QueueStatus in src/types/queue.types.ts). -/
inductive QStatus
  | aguardando
  | enviada
  | cancelada
  | erro
  deriving DecidableEq, Repr

/-- Message direction (enum MessageDirection). -/
inductive MsgDir
  | sent
  | received
  deriving DecidableEq, Repr

/-- Row of of_schedules (fields read by this core). -/
structure Schedule where
  id : Nat
  owner : Nat
  sts : Nat
  patient : Nat
  dates : Nat
  times : Str
  procedures : Option Str
  whatsConf : Bool
  deriving DecidableEq, Repr

/-- Row of all_patients. -/
structure Patient where
  id : Nat
  patientsName : Str
  tel1 : Option Str
  tel2 : Option Str
  deriving DecidableEq, Repr

/-- Row of wa_templates (`ttype` embeds the `type` column). -/
structure WaTemplate where
  id : Nat
  ownerId : Nat
  ttype : Str
  content : Str
  active : Bool
  createdAt : Int
  deriving DecidableEq, Repr

/-- Row of wa_queue. -/
structure QItem where
  id : Nat
  scheduleId : Nat
  ownerId : Nat
  userId : Nat
  templateId : Nat
  status : QStatus
  createdAt : Int
  sentAt : Option Int
  deriving DecidableEq, Repr

/-- Row of wa_messages (timestamps in milliseconds, as JS `Date.getTime`). -/
structure WaMsg where
  id : Nat
  scheduleId : Nat
  owner : Nat
  userId : Nat
  templateId : Option Nat
  direction : MsgDir
  message : Str
  status : Str
  createdAt : Int
  deriving DecidableEq, Repr

/-- WhatsApp session status (whatsapp_sessions.status). -/
inductive SessStatus
  | connected
  | connecting
  | disconnected
  | sessError
  deriving DecidableEq, Repr

/-- Row of whatsapp_sessions (fields read by session validation). -/
structure WaSession where
  tenantId : Nat
  status : SessStatus
  connectedAt : Int
  deriving DecidableEq, Repr

/-- The persistent state touched by the confirmation workflow.  Fresh row ids
for inserts come from the two counters. -/
structure Db where
  schedules : List Schedule
  patients : List Patient
  templates : List WaTemplate
  queue : List QItem
  messages : List WaMsg
  sessions : List WaSession
  nextQueueId : Nat
  nextMessageId : Nat
  deriving DecidableEq, Repr

/-- Observable outbound effect: one send attempt through the WhatsApp broker
(whatsappService.sendMessage). -/
inductive Eff
  | waSend (ownerId : Nat) (phone : Str) (text : Str)
  deriving DecidableEq, Repr

/-- Environment oracle: outcome of the external broker send call for given
owner, phone and text.  The broker is an external collaborator; its HTTP
outcome is not determined by the local state. -/
structure Env where
  sendOk : Nat → Str → Str → Bool

/-- Milliseconds in `h` hours (the JS handler compares millisecond
differences against hour windows). -/
def hoursToMs (h : Int) : Int :=
  h * 3600000

/-! ## Repositories -/

/-- `scheduleRepository.getById`. -/
def scheduleGetById (db : Db) (sid : Nat) : Option Schedule :=
  db.schedules.find? (fun s => decide (s.id = sid))

/-- `scheduleRepository.updateStatus`: UPDATE of_schedules SET sts WHERE id. -/
def scheduleUpdateStatus (db : Db) (sid newStatus : Nat) : Db :=
  { db with schedules := db.schedules.map (fun s =>
      if s.id = sid then { s with sts := newStatus } else s) }

/-- UPDATE of_schedules SET whatsConf = 1 WHERE id (step 10 of
processQueueItem). -/
def scheduleMarkWhatsConf (db : Db) (sid : Nat) : Db :=
  { db with schedules := db.schedules.map (fun s =>
      if s.id = sid then { s with whatsConf := true } else s) }

/-- `waMessageRepository.log`: INSERT INTO wa_messages (created_at = NOW()). -/
def waMessageLog (db : Db) (now : Int) (scheduleId owner userId : Nat)
    (templateId : Option Nat) (direction : MsgDir) (message status : Str) : Db :=
  { db with
    messages := db.messages ++
      [⟨db.nextMessageId, scheduleId, owner, userId, templateId, direction,
        message, status, now⟩],
    nextMessageId := db.nextMessageId + 1 }

/-- `waQueueRepository.enqueue`: INSERT INTO wa_queue with status
'Aguardando' and created_at = NOW(). -/
def waQueueEnqueue (db : Db) (now : Int) (scheduleId ownerId userId templateId : Nat) : Db :=
  { db with
    queue := db.queue ++
      [⟨db.nextQueueId, scheduleId, ownerId, userId, templateId,
        QStatus.aguardando, now, none⟩],
    nextQueueId := db.nextQueueId + 1 }

/-- ORDER BY … LIMIT 1 as a fold: keep the current candidate when
`keep current next` holds, else move to the next row; ties keep the earlier
row, matching a stable sort. -/
def pickBy {α : Type} (keep : α → α → Bool) (l : List α) : Option α :=
  l.foldl (fun cur s =>
    match cur with
    | none => some s
    | some c => if keep c s then some c else some s) none

/-- `waTemplateRepository.getByType`: active template of the owner and type,
ORDER BY created_at DESC LIMIT 1 (the most recently created active one; the
fold keeps the first row among equal timestamps). -/
def templateGetByType (db : Db) (ownerId : Nat) (ttype : Str) : Option WaTemplate :=
  pickBy (fun b t => !decide (t.createdAt > b.createdAt))
    (db.templates.filter (fun t =>
      decide (t.ownerId = ownerId) && decide (t.ttype = ttype) && t.active))

/-- `QueueService.updateQueueStatus` / `waQueueRepository.updateStatus`:
UPDATE wa_queue SET status WHERE id, additionally writing sent_at = NOW() when
the new status is 'Enviada'. -/
def updateQueueStatus (db : Db) (now : Int) (queueId : Nat) (status : QStatus) : Db :=
  { db with queue := db.queue.map (fun q =>
      if q.id = queueId then
        if status = QStatus.enviada then { q with status := status, sentAt := some now }
        else { q with status := status }
      else q) }

/-- Sort rank of the session-validation query (CONNECTED first, then
CONNECTING). -/
def sessRank (s : WaSession) : Nat :=
  match s.status with
  | .connected => 1
  | .connecting => 2
  | _ => 3

/-- Strict "comes earlier" order of the session-validation query: rank
ascending, then connectedAt descending. -/
def sessBefore (a b : WaSession) : Bool :=
  decide (sessRank a < sessRank b) ||
  (decide (sessRank a = sessRank b) && decide (a.connectedAt > b.connectedAt))

/-- `QueueService.validateWhatsAppSession`: pick the first session of the
tenant with status CONNECTED or CONNECTING under the query's ordering;
validation passes (returns `true`) exactly when that session is CONNECTED,
and the source throws (here `false`) when there is none or it is still
CONNECTING. -/
def validateWhatsAppSession (db : Db) (ownerId : Nat) : Bool :=
  let sess := db.sessions.filter (fun s =>
    decide (s.tenantId = ownerId) &&
    (decide (s.status = SessStatus.connected) || decide (s.status = SessStatus.connecting)))
  let best := pickBy (fun c s => !sessBefore s c) sess
  match best with
  | none => false
  | some s => decide (s.status = SessStatus.connected)

/-- JS truthiness of an optional string: `undefined`/`null` and the empty
string are falsy. -/
def truthyOpt : Option Str → Option Str
  | none => none
  | some s => if s = [] then none else some s

/-! ## Queue service (src/services/queueService.ts) -/

/-- Result of one queue-service call: the updated state, the outbound send
attempts, and whether the call completed without throwing. -/
structure QRun where
  db : Db
  effs : List Eff
  ok : Bool
  deriving DecidableEq, Repr

/-- Oldest Waiting queue row of a schedule (ORDER BY created_at ASC LIMIT 1,
keeping the first row among equal timestamps), restricted by the INNER JOIN
to rows whose schedule exists. -/
def oldestWaitingFor (db : Db) (scheduleId : Nat) : Option QItem :=
  pickBy (fun c q => !decide (q.createdAt < c.createdAt))
    (db.queue.filter (fun q =>
      decide (q.scheduleId = scheduleId) && decide (q.status = QStatus.aguardando) &&
      (scheduleGetById db q.scheduleId).isSome))

/-- `QueueService.processQueueItem`: pop the oldest Waiting item of the
schedule; resolve patient, phone (tel1 || tel2), template; render the
template; re-validate the session; send; mark Enviada plus audit log plus
whatsConf on success, mark Erro plus audit log and rethrow on failure.
Missing patient/phone/template mark the item Erro and throw without an
audit row. -/
def processQueueItem (env : Env) (now : Int) (db : Db) (scheduleId : Nat) : QRun :=
  match oldestWaitingFor db scheduleId with
  | none => ⟨db, [], true⟩
  | some q =>
    match scheduleGetById db q.scheduleId with
    | none => ⟨db, [], true⟩
    | some s =>
      match db.patients.find? (fun p => decide (p.id = s.patient)) with
      | none => ⟨updateQueueStatus db now q.id QStatus.erro, [], false⟩
      | some p =>
        match (truthyOpt p.tel1).or (truthyOpt p.tel2) with
        | none => ⟨updateQueueStatus db now q.id QStatus.erro, [], false⟩
        | some phoneNumber =>
          match db.templates.find? (fun t => decide (t.id = q.templateId)) with
          | none => ⟨updateQueueStatus db now q.id QStatus.erro, [], false⟩
          | some t =>
            let processed := processTemplate t.content
              ⟨p.patientsName, formatDateModel s.dates, formatTime s.times,
               procOrDefault s.procedures⟩
            let formattedPhone := formatPhoneForWhatsApp phoneNumber
            if validateWhatsAppSession db s.owner then
              let attempt := Eff.waSend s.owner formattedPhone processed
              if env.sendOk s.owner formattedPhone processed then
                let db1 := updateQueueStatus db now q.id QStatus.enviada
                let db2 := waMessageLog db1 now q.scheduleId s.owner q.userId
                  (some q.templateId) MsgDir.sent processed "Enviada".toList
                let db3 := scheduleMarkWhatsConf db2 scheduleId
                ⟨db3, [attempt], true⟩
              else
                let db1 := updateQueueStatus db now q.id QStatus.erro
                let db2 := waMessageLog db1 now q.scheduleId s.owner q.userId
                  (some q.templateId) MsgDir.sent processed "Erro".toList
                ⟨db2, [attempt], false⟩
            else
              let db1 := updateQueueStatus db now q.id QStatus.erro
              let db2 := waMessageLog db1 now q.scheduleId s.owner q.userId
                (some q.templateId) MsgDir.sent processed "Erro".toList
              ⟨db2, [], false⟩

/-- Insert a queue row into a list sorted ascending by created_at, after any
rows with an equal or smaller timestamp. -/
def insertQAsc (q : QItem) : List QItem → List QItem
  | [] => [q]
  | x :: xs => if q.createdAt < x.createdAt then q :: x :: xs else x :: insertQAsc q xs

/-- Stable ascending sort by created_at. -/
def sortQAsc (l : List QItem) : List QItem :=
  l.foldl (fun acc q => insertQAsc q acc) []

/-- Deduplicate keeping first occurrences. -/
def dedupGo (seen : List Nat) : List Nat → List Nat
  | [] => []
  | n :: rest =>
    if seen.contains n then dedupGo seen rest
    else n :: dedupGo (n :: seen) rest

/-- SELECT DISTINCT schedule_id FROM wa_queue WHERE status = 'Aguardando'
ORDER BY created_at ASC LIMIT `limit`. -/
def pendingScheduleIds (db : Db) (limit : Nat) : List Nat :=
  let waiting := sortQAsc (db.queue.filter (fun q => decide (q.status = QStatus.aguardando)))
  (dedupGo [] (waiting.map (fun q => q.scheduleId))).take limit

/-- The batch loop of `QueueService.processQueue`: process the selected
schedules sequentially, continuing past individual failures. -/
def processQueueGo (env : Env) (now : Int) : List Nat → Db → List Eff → Db × List Eff
  | [], db, effs => (db, effs)
  | sid :: rest, db, effs =>
    let r := processQueueItem env now db sid
    processQueueGo env now rest r.db (effs ++ r.effs)

/-- `QueueService.processQueue`. -/
def processQueue (env : Env) (now : Int) (db : Db) (limit : Nat) : Db × List Eff :=
  processQueueGo env now (pendingScheduleIds db limit) db []

/-- `QueueService.cancelQueueItem`: UPDATE wa_queue SET status = 'Cancelada'
WHERE schedule_id = ? AND status = 'Aguardando' (a no-op affecting zero rows
when nothing is Waiting; the call never throws for an empty match). -/
def cancelQueueItem (db : Db) (scheduleId : Nat) : Db :=
  { db with queue := db.queue.map (fun q =>
      if q.scheduleId = scheduleId ∧ q.status = QStatus.aguardando then
        { q with status := QStatus.cancelada }
      else q) }

/-! ## Message repository (src/repositories/waMessageRepository.ts,
getLastSentToNumber — corrected version: 48h SQL window, suffix matching in
JS) -/

/-- Inbound phone normalization shared by the repository and the correlator:
strip non-digits, then drop a leading country code 55 when the total length
is 13, then when it is 12. -/
def cleanInbound (phoneNumber : Str) : Str :=
  let c0 := stripNonDigits phoneNumber
  let c1 := if c0.length = 13 && startsWith "55".toList c0 then c0.drop 2 else c0
  if c1.length = 12 && startsWith "55".toList c1 then c1.drop 2 else c1

/-- Per-patient-phone normalization of the repository's matcher: strip
non-digits (empty when the field is absent), then drop a leading 55 when at
least 12 digits remain. -/
def telFinal (t : Option Str) : Str :=
  let cleanT := match t with
    | none => []
    | some s => stripNonDigits s
  if decide (cleanT.length ≥ 12) && startsWith "55".toList cleanT then cleanT.drop 2
  else cleanT

/-- JS falsiness of a patient phone field (`!msg.tel1`). -/
def telFalsy : Option Str → Bool
  | none => true
  | some s => decide (s = [])

/-- The repository's number matcher: both phones absent/empty match nothing;
otherwise the last 8 digits of the cleaned inbound number must equal the last
8 digits of either normalized patient phone. -/
def msgMatchesNumber (cleanNumber : Str) (p : Patient) : Bool :=
  if telFalsy p.tel1 && telFalsy p.tel2 then false
  else
    decide (lastN 8 cleanNumber = lastN 8 (telFinal p.tel1)) ||
    decide (lastN 8 cleanNumber = lastN 8 (telFinal p.tel2))

/-- The INNER JOINs of the repository query: the patient of the message's
schedule. -/
def msgPatient (db : Db) (m : WaMsg) : Option Patient :=
  match db.schedules.find? (fun s => decide (s.id = m.scheduleId)) with
  | none => none
  | some s => db.patients.find? (fun p => decide (p.id = s.patient))

/-- Insert a message into a list sorted descending by created_at. -/
def insertMsgDesc (m : WaMsg) : List WaMsg → List WaMsg
  | [] => [m]
  | x :: xs => if m.createdAt > x.createdAt then m :: x :: xs else x :: insertMsgDesc m xs

/-- Stable descending sort by created_at (ORDER BY created_at DESC). -/
def sortMsgsDesc (l : List WaMsg) : List WaMsg :=
  l.foldl (fun acc m => insertMsgDesc m acc) []

/-- `waMessageRepository.getLastSentToNumber`: fetch the tenant's sent
messages of the last 48 hours joined to schedule and patient (newest first,
LIMIT 20), then return the first one whose patient phone matches the cleaned
inbound number by 8-digit suffix. -/
def getLastSentToNumber (db : Db) (now : Int) (ownerId : Nat) (phoneNumber : Str) :
    Option WaMsg :=
  let cleanNumber := cleanInbound phoneNumber
  let rows := db.messages.filter (fun m =>
    decide (m.owner = ownerId) && decide (m.direction = MsgDir.sent) &&
    decide (now - m.createdAt ≤ hoursToMs 48) && (msgPatient db m).isSome)
  let recent := (sortMsgsDesc rows).take 20
  recent.find? (fun m =>
    match msgPatient db m with
    | none => false
    | some p => msgMatchesNumber cleanNumber p)

/-! ## Incoming message handler (src/services/incomingMessageHandler.ts,
corrected handler) -/

/-- The `action` field of the handler's MessageResponse. -/
inductive HAction
  | confirmed
  | rescheduled
  | fallback
  | ignored
  deriving DecidableEq, Repr

/-- The handler's structured result (`note` embeds the TS `message` field). -/
structure MessageResponse where
  success : Bool
  action : HAction
  statusUpdated : Option Bool := none
  templateSent : Option Bool := none
  note : Str := []
  deriving DecidableEq, Repr

/-- One handler invocation: response, updated state, send attempts. -/
structure HandlerOut where
  resp : MessageResponse
  db : Db
  effs : List Eff
  deriving DecidableEq, Repr

/-- The clarification text of `handleFallbackResponse`. -/
def fallbackText : Str :=
  "Resposta inválida. Por favor, responda com:\n1 - Para confirmar\n2 - Para reagendar".toList

/-- `IncomingMessageHandler.handleFallbackResponse`: send the clarification
to the formatted sender number; on success log it as sent; a send failure is
caught and reported without a log row.  No appointment or queue mutation. -/
def handleFallbackResponse (env : Env) (now : Int) (db : Db) (ownerId : Nat)
    (senderNumber : Str) (scheduleId : Nat) : HandlerOut :=
  let formatted := formatPhoneForWhatsApp senderNumber
  let attempt := Eff.waSend ownerId formatted fallbackText
  if env.sendOk ownerId formatted fallbackText then
    let db1 := waMessageLog db now scheduleId ownerId 1 none MsgDir.sent
      fallbackText "Enviada".toList
    ⟨⟨true, HAction.fallback, none, none, "Fallback enviado".toList⟩, db1, [attempt]⟩
  else
    ⟨⟨false, HAction.fallback, none, none, "Erro ao enviar fallback".toList⟩, db, [attempt]⟩

/-- `IncomingMessageHandler.processConfirmationAction`: log the received
reply, update the appointment status, resolve the template (a missing
template reports statusUpdated true / templateSent false and does not roll
back), enqueue, and process the queue item immediately; a failure inside the
queue processing is caught after the mutations already happened. -/
def processConfirmationAction (env : Env) (now : Int) (db : Db) (action : RAction)
    (templateType : Str) (statusToSet : Nat) (scheduleId ownerId lastUserId : Nat)
    (responseText : Str) : HandlerOut :=
  let outAction := if action = RAction.confirm then HAction.confirmed else HAction.rescheduled
  let uid := if lastUserId = 0 then 1 else lastUserId
  let db1 := waMessageLog db now scheduleId ownerId uid none MsgDir.received
    responseText "Recebida".toList
  let db2 := scheduleUpdateStatus db1 scheduleId statusToSet
  match templateGetByType db2 ownerId templateType with
  | none =>
    ⟨⟨false, outAction, some true, some false,
      "Template \"".toList ++ templateType ++ "\" não encontrado".toList⟩, db2, []⟩
  | some t =>
    let db3 := waQueueEnqueue db2 now scheduleId ownerId uid t.id
    let r := processQueueItem env now db3 scheduleId
    if r.ok then
      ⟨⟨true, outAction, some true, some true,
        "Ação processada com template".toList⟩, r.db, r.effs⟩
    else
      ⟨⟨false, outAction, none, none, "Erro ao processar ação".toList⟩, r.db, r.effs⟩

/-- `IncomingMessageHandler.handleMessage` (corrected handler): empty text is
ignored; without a sent message to the sender in the repository's window, or
with one older than 24 hours, the reply is ignored; then the trimmed text is
classified ("1" confirm / "2" reschedule / other digits fallback / else
ignore); for confirm/reschedule the appointment is loaded, a terminal status
(6 or 7) is ignored, and otherwise the confirmation action runs. -/
def handleMessage (env : Env) (now : Int) (db : Db) (ownerId : Nat)
    (senderNumber messageText : Str) : HandlerOut :=
  if messageText = [] then
    ⟨⟨false, HAction.ignored, none, none, "Texto inválido".toList⟩, db, []⟩
  else
    match getLastSentToNumber db now ownerId senderNumber with
    | none =>
      ⟨⟨true, HAction.ignored, none, none,
        "Nenhuma mensagem enviada nas últimas 24h".toList⟩, db, []⟩
    | some lastMessage =>
      if now - lastMessage.createdAt > hoursToMs 24 then
        ⟨⟨true, HAction.ignored, none, none,
          "Mensagem fora da janela de 24h".toList⟩, db, []⟩
      else
        let cleanText := trimStr messageText
        let cls := classifyReply cleanText
        match cls.action with
        | RAction.fallback =>
          handleFallbackResponse env now db ownerId senderNumber lastMessage.scheduleId
        | RAction.ignore =>
          ⟨⟨true, HAction.ignored, none, none,
            "Resposta não é número válido".toList⟩, db, []⟩
        | _ =>
          match scheduleGetById db lastMessage.scheduleId with
          | none =>
            ⟨⟨false, HAction.ignored, none, none,
              "Agendamento não encontrado".toList⟩, db, []⟩
          | some schedule =>
            if schedule.sts = 6 ∨ schedule.sts = 7 then
              ⟨⟨true, HAction.ignored, none, none,
                "Agendamento já processado".toList⟩, db, []⟩
            else
              processConfirmationAction env now db cls.action cls.templateType
                cls.statusToSet schedule.id ownerId lastMessage.userId cleanText

/-! ## Appointment correlator (src/services/evolutionService.ts,
findPendingScheduleForNumber) -/

/-- The SQL REPLACE chain of the correlator query: remove only hyphens,
spaces and parentheses from a stored patient phone. -/
def stripPunct (s : Str) : Str :=
  s.filter (fun c =>
    !(decide (c = '-') || decide (c = ' ') || decide (c = '(') || decide (c = ')')))

/-- SQL `LIKE '%suffix%'` on the punctuation-stripped phone; NULL phones
match nothing. -/
def telLikeMatch (suffix : Str) : Option Str → Bool
  | none => false
  | some t => containsSubstr (stripPunct t) suffix

/-- Lexicographic string order (SQL string comparison of the times column). -/
def strLe : Str → Str → Bool
  | [], _ => true
  | _ :: _, [] => false
  | a :: as, b :: bs => if a = b then strLe as bs else decide (a < b)

/-- ORDER BY dates ASC, times ASC as a total preorder. -/
def schedKeyLe (a b : Schedule) : Bool :=
  decide (a.dates < b.dates) || (decide (a.dates = b.dates) && strLe a.times b.times)

/-- LIMIT 1 under the correlator's ordering: the fold keeps the first row
among ties. -/
def selectEarliest (l : List Schedule) : Option Schedule :=
  pickBy schedKeyLe l

/-- The row filter of the correlator query: owner, non-terminal status, date
at least yesterday, patient join, and a LIKE match of the 8-digit suffix
against either punctuation-stripped patient phone. -/
def correlatorRowMatch (db : Db) (today ownerId : Nat) (numberSuffix : Str)
    (s : Schedule) : Bool :=
  decide (s.owner = ownerId) && !(decide (s.sts = 6) || decide (s.sts = 7)) &&
  decide (today ≤ s.dates + 1) &&
  (match db.patients.find? (fun p => decide (p.id = s.patient)) with
   | none => false
   | some p => telLikeMatch numberSuffix p.tel1 || telLikeMatch numberSuffix p.tel2)

/-- `findPendingScheduleForNumber`: normalize the inbound phone, take the
last 8 digits, and return the (dates, times)-earliest appointment of the
tenant passing `correlatorRowMatch`, or none.  `today` is CURDATE() as a day
number. -/
def findPendingScheduleForNumber (db : Db) (today ownerId : Nat) (phoneNumber : Str) :
    Option Schedule :=
  let cleanNumber := cleanInbound phoneNumber
  let numberSuffix := lastN 8 cleanNumber
  selectEarliest (db.schedules.filter (correlatorRowMatch db today ownerId numberSuffix))

/-- Modelled from the spec (§4.3), for comparison with the source: the
appointment "matches exactly when the patient's first or second phone, after
THE SAME stripping (all non-digits removed), SHARES the 8-digit suffix"; the
rest of the pipeline is as in the source. -/
def specTelMatch (suffix : Str) : Option Str → Bool
  | none => false
  | some t => decide (lastN 8 (stripNonDigits t) = suffix)

/-- Modelled from the spec (§4.3): the correlator as the spec words it —
identical owner/status/date window and ordering, but patient phones stripped
of all non-digits and matched by shared 8-digit suffix. -/
def specFindPendingAppointment (db : Db) (today ownerId : Nat) (phoneNumber : Str) :
    Option Schedule :=
  let cleanNumber := cleanInbound phoneNumber
  let numberSuffix := lastN 8 cleanNumber
  selectEarliest (db.schedules.filter (fun s =>
    decide (s.owner = ownerId) && !(decide (s.sts = 6) || decide (s.sts = 7)) &&
    decide (today ≤ s.dates + 1) &&
    (match db.patients.find? (fun p => decide (p.id = s.patient)) with
     | none => false
     | some p => specTelMatch numberSuffix p.tel1 || specTelMatch numberSuffix p.tel2)))

/-! ## Webhook message normalizer (src/services/whatsappService.ts,
handleEvolutionMessageReceived) -/

/-- The `key` object of a messages.upsert payload. -/
structure UpsertKey where
  fromMe : Bool
  remoteJid : Option Str
  keyId : Option Str
  deriving DecidableEq, Repr

/-- The extendedTextMessage object. -/
structure ExtText where
  text : Option Str
  deriving DecidableEq, Repr

/-- The `message` object of a messages.upsert payload. -/
structure UpsertMsg where
  conversation : Option Str
  extendedTextMessage : Option ExtText
  deriving DecidableEq, Repr

/-- A messages.upsert payload as far as the normalizer inspects it. -/
structure UpsertData where
  key : Option UpsertKey
  message : Option UpsertMsg
  deriving DecidableEq, Repr

/-- Text extraction of the normalizer: the plain conversation field when
truthy, else the extended-text-message field when truthy, else empty
(`messageText` starts as ""). -/
def extractText (m : UpsertMsg) : Str :=
  match truthyOpt m.conversation with
  | some s => s
  | none =>
    match m.extendedTextMessage with
    | none => []
    | some e =>
      match truthyOpt e.text with
      | some t => t
      | none => []

/-- JS `s.replace(pat, "")` with a string pattern: remove the first
occurrence only. -/
def removeFirstOcc : Str → Str → Str
  | [], _ => []
  | c :: rest, pat =>
    if startsWith pat (c :: rest) then (c :: rest).drop pat.length
    else c :: removeFirstOcc rest pat

/-- The sender and text the normalizer hands onward. -/
structure InboundMsg where
  senderNumber : Str
  text : Str
  deriving DecidableEq, Repr

/-- `WhatsAppService.handleEvolutionMessageReceived`, up to the point where
state changes: `none` is an early return (message dropped with no error, no
receivedMessage row, no handler invocation); `some` carries the extracted
sender and text that the service then persists and forwards to the incoming
handler. -/
def handleEvolutionMessageReceived (d : UpsertData) : Option InboundMsg :=
  match d.key, d.message with
  | none, _ => none
  | some _, none => none
  | some k, some m =>
    if k.fromMe then none
    else if (match k.remoteJid with
             | none => false
             | some j => containsSubstr j "@g.us".toList) then none
    else
      let messageText := extractText m
      if trimStr messageText = [] then none
      else
        let senderNumber := match k.remoteJid with
          | none => []
          | some j => removeFirstOcc j "@s.whatsapp.net".toList
        some ⟨senderNumber, messageText⟩

/-! ## Periodic batch processor (src/jobs/queueProcessor.ts) -/

/-- The processor's in-process mutual-exclusion state. -/
structure QPState where
  isProcessing : Bool
  deriving DecidableEq, Repr

/-- Result of one scheduled `processQueue` firing: final flag state, updated
store, send attempts, whether the queue service was invoked, and whether the
"already processing, skipping" notice was emitted. -/
structure BatchRun where
  state : QPState
  db : Db
  effs : List Eff
  invoked : Bool
  skippedNotice : Bool
  deriving DecidableEq, Repr

/-- `QueueProcessor.processQueue` (the private guarded runner): a firing
while a run is in flight returns immediately (notice, no invocation, state
unchanged); otherwise the flag is set, the queue service runs inside
try/catch, and the finally block clears the flag whether the run succeeded
or failed. -/
def qpProcessQueue (env : Env) (now : Int) (batchSize : Nat) (st : QPState) (db : Db) :
    BatchRun :=
  if st.isProcessing then ⟨st, db, [], false, true⟩
  else
    let r := processQueue env now db batchSize
    ⟨⟨false⟩, r.1, r.2, true, false⟩

/-- `QueueProcessor.processOnce`: the manual trigger throws
("Processamento já em andamento") when a run is in flight instead of
interleaving; otherwise it runs with the same finally-clears-flag shape. -/
def qpProcessOnce (env : Env) (now : Int) (limit : Nat) (st : QPState) (db : Db) :
    Except Unit BatchRun :=
  if st.isProcessing then Except.error ()
  else
    let r := processQueue env now db limit
    Except.ok ⟨⟨false⟩, r.1, r.2, true, false⟩

/-! ## Simultaneous rendering (modelled from the claim's words, for
comparison with processTemplate) -/

/-- Modelled from the claim's words: one-pass simultaneous substitution that
"replaces every occurrence of each placeholder case-insensitively with the
supplied value and leaves all other characters unchanged" — an occurrence
introduced by a supplied value is NOT rescanned.  Skip-counter scanner as in
`raciGo`. -/
def renderSimulGo (v : TVals) : Nat → Str → Str
  | _, [] => []
  | Nat.succ k, _ :: rest => renderSimulGo v k rest
  | 0, c :: rest =>
    if ciStarts "{nome}".toList (c :: rest) then
      v.nome ++ renderSimulGo v ("{nome}".length - 1) rest
    else if ciStarts "{data}".toList (c :: rest) then
      v.data ++ renderSimulGo v ("{data}".length - 1) rest
    else if ciStarts "{hora}".toList (c :: rest) then
      v.hora ++ renderSimulGo v ("{hora}".length - 1) rest
    else if ciStarts "{procedimentos}".toList (c :: rest) then
      v.procedimentos ++ renderSimulGo v ("{procedimentos}".length - 1) rest
    else c :: renderSimulGo v 0 rest

/-- Simultaneous (single-pass) rendering, per the claim's reading. -/
def renderSimul (t : Str) (v : TVals) : Str :=
  renderSimulGo v 0 t

/-- Monotonicity relation for claim C4: every queue row after an operation
corresponds to a row of the same id before it, and rows that were already
out of Waiting keep their status unchanged. -/
def queuePreserves (pre post : List QItem) : Prop :=
  ∀ q' ∈ post, ∃ q ∈ pre, q.id = q'.id ∧
    (q.status ≠ QStatus.aguardando → q'.status = q.status)

/-- Environment in which every broker send succeeds. -/
def envTrue : Env :=
  ⟨fun _ _ _ => true⟩

/-- Empty store. -/
def dbEmpty : Db :=
  ⟨[], [], [], [], [], [], 0, 0⟩

/-- Concrete store: one pending-confirmation workflow where the appointment
is already at terminal status 6, with the patient and a sent message that
matches the sender's number inside the reply window. -/
def dbTerm : Db :=
  ⟨[⟨7, 42, 6, 1, 100, "0900".toList, none, false⟩],
   [⟨1, "Maria".toList, some "11999998888".toList, none⟩],
   [], [],
   [⟨1, 7, 42, 1, none, MsgDir.sent, "conf".toList, "Enviada".toList, 1000⟩],
   [], 10, 20⟩

/-- The four recognised placeholders. -/
inductive PH
  | nome
  | data
  | hora
  | procedimentos
  deriving DecidableEq, Repr

/-- Placeholder pattern text. -/
def phPat : PH → Str
  | .nome => "{nome}".toList
  | .data => "{data}".toList
  | .hora => "{hora}".toList
  | .procedimentos => "{procedimentos}".toList

/-- Second character of a placeholder pattern (these are pairwise distinct,
which is what makes the four passes independent). -/
def phSnd : PH → Char
  | .nome => 'n'
  | .data => 'd'
  | .hora => 'h'
  | .procedimentos => 'p'

/-- Placeholder pattern after its first two characters. -/
def phTail : PH → Str
  | .nome => "ome\x7d".toList
  | .data => "ata\x7d".toList
  | .hora => "ora\x7d".toList
  | .procedimentos => "rocedimentos\x7d".toList

/-- The supplied value of a placeholder. -/
def phVal (v : TVals) : PH → Str
  | .nome => v.nome
  | .data => v.data
  | .hora => v.hora
  | .procedimentos => v.procedimentos

/-- A template segment: a literal run or one placeholder occurrence (in any
character case). -/
inductive TSeg
  | lit (s : Str)
  | ph (p : PH) (occ : Str)
  deriving DecidableEq, Repr

/-- The template text of a segment list. -/
def buildT : List TSeg → Str
  | [] => []
  | .lit s :: rest => s ++ buildT rest
  | .ph _ occ :: rest => occ ++ buildT rest

/-- The rendered text of a segment list: placeholder occurrences replaced by
their supplied values. -/
def buildR (v : TVals) : List TSeg → Str
  | [] => []
  | .lit s :: rest => s ++ buildR v rest
  | .ph p _ :: rest => phVal v p ++ buildR v rest

/-- No opening brace in the string (no placeholder can begin inside it). -/
def noLB (s : Str) : Bool :=
  s.all (fun c => decide (c ≠ '\x7b'))

/-- Wellformedness of a segment: literal runs contain no opening brace, and
an occurrence is a case-variant of its placeholder's pattern. -/
def segOk : TSeg → Bool
  | .lit s => noLB s
  | .ph p occ => decide (occ.map lowerCh = (phPat p).map lowerCh)

/-- One global replacement pass at the segment level: the targeted
placeholder's occurrences become literal runs of the replacement. -/
def passSubst (q : PH) (rep : Str) : List TSeg → List TSeg :=
  List.map (fun sg =>
    match sg with
    | .lit s => TSeg.lit s
    | .ph p occ => if p = q then TSeg.lit rep else TSeg.ph p occ)

/-- Correlator scenario A: the patient's phone contains a dot, which the
SQL REPLACE chain does not remove but full non-digit stripping would. -/
def schedA : Schedule :=
  ⟨21, 1, 0, 1, 100, "0900".toList, none, false⟩

/-- Store for correlator scenario A. -/
def dbCorrA : Db :=
  ⟨[schedA], [⟨1, "Ana".toList, some "9999.8888".toList, none⟩], [], [], [], [], 0, 0⟩

/-- Correlator scenario B: the patient's phone contains the 8-digit suffix
strictly in its interior (substring but not suffix). -/
def schedB : Schedule :=
  ⟨22, 1, 0, 2, 100, "0900".toList, none, false⟩

/-- Store for correlator scenario B. -/
def dbCorrB : Db :=
  ⟨[schedB], [⟨2, "Bia".toList, some "119999888812".toList, none⟩], [], [], [], [], 0, 0⟩

/-! # Theorems -/

/-- C2: reply classification is total and exhaustive — every input string
yields exactly one of confirm/reschedule/fallback/ignore; independently of
surrounding whitespace, trimmed "1" maps to confirm with target status 6 and
template type "confirmar", trimmed "2" to reschedule with status 7 and
"reagendar"; any other all-digit trimmed text maps to fallback and any
non-numeric text to ignore. -/
theorem claim_C2_classification_total (s : Str) :
    ((classifyReply (trimStr s)).action = RAction.confirm ∨
     (classifyReply (trimStr s)).action = RAction.reschedule ∨
     (classifyReply (trimStr s)).action = RAction.fallback ∨
     (classifyReply (trimStr s)).action = RAction.ignore) ∧
    (trimStr s = "1".toList →
      classifyReply (trimStr s) = ⟨RAction.confirm, "confirmar".toList, 6⟩) ∧
    (trimStr s = "2".toList →
      classifyReply (trimStr s) = ⟨RAction.reschedule, "reagendar".toList, 7⟩) ∧
    (isAllDigits (trimStr s) = true → trimStr s ≠ "1".toList →
      trimStr s ≠ "2".toList →
      (classifyReply (trimStr s)).action = RAction.fallback) ∧
    (isAllDigits (trimStr s) = false →
      (classifyReply (trimStr s)).action = RAction.ignore) := by
  refine ⟨?_, ?_, ?_, ?_, ?_⟩
  · unfold classifyReply
    split_ifs <;> simp
  · intro h
    simp [classifyReply, h]
  · intro h
    have h1 : trimStr s ≠ "1".toList := by simp [h]
    simp [classifyReply, h, h1]
  · intro hd h1 h2
    have h1' : trimStr s ≠ ['1'] := h1
    have h2' : trimStr s ≠ ['2'] := h2
    simp [classifyReply, h1', h2', hd]
  · intro hd
    have h1' : trimStr s ≠ ['1'] := by
      intro h
      rw [h] at hd
      exact absurd hd (by decide)
    have h2' : trimStr s ≠ ['2'] := by
      intro h
      rw [h] at hd
      exact absurd hd (by decide)
    simp [classifyReply, h1', h2', hd]

/-- Witness for C2 at concrete inputs: " 1 " confirms, "33" falls back,
"ok" is ignored. -/
theorem claim_C2_witness :
    (classifyReply (trimStr " 1 ".toList)).action = RAction.confirm ∧
    (classifyReply (trimStr "33".toList)).action = RAction.fallback ∧
    (classifyReply (trimStr "ok".toList)).action = RAction.ignore := by
  refine ⟨?_, ?_, ?_⟩
  · have h := (claim_C2_classification_total " 1 ".toList).2.1 (by decide)
    rw [h]
  · exact (claim_C2_classification_total "33".toList).2.2.2.1 (by decide)
      (by decide) (by decide)
  · exact (claim_C2_classification_total "ok".toList).2.2.2.2 (by decide)

/-- A string of digits is untouched by `\D` stripping. -/
theorem stripNonDigits_id {s : Str} (h : s.all isDigitCh = true) :
    stripNonDigits s = s := by
  apply List.filter_eq_self.mpr
  simpa [List.all_eq_true] using h

/-- Leading-zero stripping is the identity when the head is not '0'. -/
theorem dropLeadingZeros_cons {c : Char} {s : Str} (h : c ≠ '0') :
    dropLeadingZeros (c :: s) = c :: s := by
  simp [dropLeadingZeros, h]

/-- C8 counterexample: the 10-digit national form (no country code, no
mobile 9) and the 12-digit form (country code, no mobile 9) of the same
national number produce different outputs, so the normalizer is not
canonical over all supported input formats. -/
theorem claim_C8_counterexample :
    formatPhoneForWhatsApp "1187654321".toList = "1187654321".toList ∧
    formatPhoneForWhatsApp "551187654321".toList = "5511987654321".toList ∧
    formatPhoneForWhatsApp "1187654321".toList ≠
      formatPhoneForWhatsApp "551187654321".toList := by
  refine ⟨by decide, by decide, by decide⟩

/-- C8 amended: for a national mobile number with area code `d1 d2` (not
starting in 0) and 8-digit local part `p`, the three formats 11-digit
(no country code), 13-digit (country code and mobile 9) and 12-digit
(country code, no mobile 9) all normalize to the same canonical 13-digit
output, while the 10-digit format (no country code, no mobile 9) is returned
as its bare digits and is therefore not canonicalized. -/
theorem claim_C8_amended (d1 d2 : Char) (p : Str)
    (h1 : isDigitCh d1 = true) (h2 : isDigitCh d2 = true) (h0 : d1 ≠ '0')
    (hp8 : p.length = 8) (hpd : p.all isDigitCh = true) :
    formatPhoneForWhatsApp (d1 :: d2 :: '9' :: p) =
      '5' :: '5' :: d1 :: d2 :: '9' :: p ∧
    formatPhoneForWhatsApp ('5' :: '5' :: d1 :: d2 :: '9' :: p) =
      '5' :: '5' :: d1 :: d2 :: '9' :: p ∧
    formatPhoneForWhatsApp ('5' :: '5' :: d1 :: d2 :: p) =
      '5' :: '5' :: d1 :: d2 :: '9' :: p ∧
    formatPhoneForWhatsApp (d1 :: d2 :: p) = d1 :: d2 :: p := by
  have hall1 : (d1 :: d2 :: '9' :: p).all isDigitCh = true := by
    simp [h1, h2, hpd]
    decide
  have hall2 : ('5' :: '5' :: d1 :: d2 :: '9' :: p).all isDigitCh = true := by
    simp [h1, h2, hpd]
    decide
  have hall3 : ('5' :: '5' :: d1 :: d2 :: p).all isDigitCh = true := by
    simp [h1, h2, hpd]
    decide
  have hall4 : (d1 :: d2 :: p).all isDigitCh = true := by
    simp [h1, h2, hpd]
  have h5 : ('5' : Char) ≠ '0' := by decide
  refine ⟨?_, ?_, ?_, ?_⟩
  · simp [formatPhoneForWhatsApp, stripNonDigits_id hall1, dropLeadingZeros_cons h0,
      hp8, startsWith]
  · simp [formatPhoneForWhatsApp, stripNonDigits_id hall2, dropLeadingZeros_cons h5,
      hp8, startsWith]
  · simp [formatPhoneForWhatsApp, stripNonDigits_id hall3, dropLeadingZeros_cons h5,
      hp8, startsWith]
  · simp [formatPhoneForWhatsApp, stripNonDigits_id hall4, dropLeadingZeros_cons h0,
      hp8, startsWith]

/-- Witness for C8 amended at a concrete number (area code 11, local part
87654321). -/
theorem claim_C8_amended_witness :
    formatPhoneForWhatsApp "11987654321".toList = "5511987654321".toList ∧
    formatPhoneForWhatsApp "5511987654321".toList = "5511987654321".toList ∧
    formatPhoneForWhatsApp "551187654321".toList = "5511987654321".toList ∧
    formatPhoneForWhatsApp "1187654321".toList = "1187654321".toList :=
  claim_C8_amended '1' '1' "87654321".toList (by decide) (by decide) (by decide)
    (by decide) (by decide)

/-- C7: while a batch run is in flight (the boolean flag set), a newly fired
scheduled invocation returns immediately with no queue-service invocation and
the skip notice, leaving flag and store untouched, and the manual trigger
raises an error instead of interleaving; a run that does start always ends
with the flag cleared. -/
theorem claim_C7_batch_guard (env : Env) (now : Int) (batchSize limit : Nat)
    (st : QPState) (db : Db) :
    (st.isProcessing = true →
      qpProcessQueue env now batchSize st db = ⟨st, db, [], false, true⟩ ∧
      qpProcessOnce env now limit st db = Except.error ()) ∧
    (st.isProcessing = false →
      (qpProcessQueue env now batchSize st db).invoked = true ∧
      (qpProcessQueue env now batchSize st db).state.isProcessing = false ∧
      ∃ r, qpProcessOnce env now limit st db = Except.ok r ∧
        r.state.isProcessing = false) := by
  cases st with
  | mk b => cases b <;> simp [qpProcessQueue, qpProcessOnce]

/-- Witness for C7: with the flag set, the scheduled firing is skipped and
the manual trigger errors. -/
theorem claim_C7_witness :
    qpProcessQueue envTrue 0 10 ⟨true⟩ dbEmpty = ⟨⟨true⟩, dbEmpty, [], false, true⟩ ∧
    qpProcessOnce envTrue 0 10 ⟨true⟩ dbEmpty = Except.error () :=
  (claim_C7_batch_guard envTrue 0 10 10 ⟨true⟩ dbEmpty).1 rfl

/-- `templateGetByType` reads only the templates table. -/
theorem templateGetByType_congr {a b : Db} (h : a.templates = b.templates)
    (o : Nat) (t : Str) : templateGetByType a o t = templateGetByType b o t := by
  simp [templateGetByType, h]

/-- C6: in the confirm/reschedule flow, a missing active template does not
roll the status update back — every schedule row with the target id still
carries the new status — and the returned result reports the two outcomes
independently (statusUpdated true, templateSent false); no queue row is
inserted and no send is attempted. -/
theorem claim_C6_template_missing (env : Env) (now : Int) (db : Db)
    (action : RAction) (templateType : Str) (statusToSet : Nat)
    (scheduleId ownerId lastUserId : Nat) (responseText : Str) (r : HandlerOut)
    (hr : r = processConfirmationAction env now db action templateType statusToSet
      scheduleId ownerId lastUserId responseText)
    (hmiss : templateGetByType db ownerId templateType = none) :
    r.resp.success = false ∧
    r.resp.statusUpdated = some true ∧
    r.resp.templateSent = some false ∧
    (∀ s ∈ r.db.schedules, s.id = scheduleId → s.sts = statusToSet) ∧
    r.db.queue = db.queue ∧
    r.effs = [] := by
  subst hr
  have ht : templateGetByType
      (scheduleUpdateStatus
        (waMessageLog db now scheduleId ownerId
          (if lastUserId = 0 then 1 else lastUserId) none MsgDir.received
          responseText "Recebida".toList)
        scheduleId statusToSet) ownerId templateType = none :=
    (templateGetByType_congr rfl ownerId templateType).trans hmiss
  simp only [processConfirmationAction, ht]
  refine ⟨trivial, trivial, trivial, ?_, rfl, trivial⟩
  intro s hs hid
  simp only [scheduleUpdateStatus, waMessageLog, List.mem_map] at hs
  rcases hs with ⟨s0, _, rfl⟩
  by_cases h0 : s0.id = scheduleId
  · simp [h0]
  · simp only [if_neg h0] at hid ⊢
    exact absurd hid h0

/-- Witness for C6: a concrete store with one pending appointment and no
templates. -/
theorem claim_C6_witness :
    (processConfirmationAction envTrue 0
      ⟨[⟨7, 42, 0, 1, 5, "0900".toList, none, false⟩], [], [], [], [], [], 0, 0⟩
      RAction.confirm "confirmar".toList 6 7 42 1 "1".toList).resp.statusUpdated =
        some true ∧
    (processConfirmationAction envTrue 0
      ⟨[⟨7, 42, 0, 1, 5, "0900".toList, none, false⟩], [], [], [], [], [], 0, 0⟩
      RAction.confirm "confirmar".toList 6 7 42 1 "1".toList).resp.templateSent =
        some false := by
  have h := claim_C6_template_missing envTrue 0
    ⟨[⟨7, 42, 0, 1, 5, "0900".toList, none, false⟩], [], [], [], [], [], 0, 0⟩
    RAction.confirm "confirmar".toList 6 7 42 1 "1".toList _ rfl (by decide)
  exact ⟨h.2.1, h.2.2.1⟩

/-- C5: the messages.upsert normalizer rejects payloads missing key and body,
drops self-origin (fromMe) messages, drops group messages (remote id
containing "@g.us"), extracts the text from the plain conversation field or
else the extended-text-message field (preferring the plain field when both
are present and non-empty), drops messages whose extracted text trims to
empty — each drop returning with no state change (`none`) — and otherwise
hands on exactly the extracted text with the sender derived from the remote
id. -/
theorem claim_C5_upsert_normalizer (d : UpsertData) :
    (d.key = none → d.message = none → handleEvolutionMessageReceived d = none) ∧
    (∀ k, d.key = some k → k.fromMe = true →
      handleEvolutionMessageReceived d = none) ∧
    (∀ k j, d.key = some k → k.remoteJid = some j →
      containsSubstr j "@g.us".toList = true →
      handleEvolutionMessageReceived d = none) ∧
    (∀ m s, m.conversation = some s → s ≠ [] → extractText m = s) ∧
    (∀ m e t, truthyOpt m.conversation = none → m.extendedTextMessage = some e →
      e.text = some t → t ≠ [] → extractText m = t) ∧
    (∀ m, d.message = some m → trimStr (extractText m) = [] →
      handleEvolutionMessageReceived d = none) ∧
    (∀ k m, d.key = some k → d.message = some m → k.fromMe = false →
      (∀ j, k.remoteJid = some j → containsSubstr j "@g.us".toList = false) →
      trimStr (extractText m) ≠ [] →
      handleEvolutionMessageReceived d =
        some ⟨(match k.remoteJid with
               | none => []
               | some j => removeFirstOcc j "@s.whatsapp.net".toList),
              extractText m⟩) := by
  rcases d with ⟨dk, dm⟩
  refine ⟨?_, ?_, ?_, ?_, ?_, ?_, ?_⟩
  · intro hk hm
    subst hk; subst hm
    rfl
  · intro k hk hf
    subst hk
    cases dm with
    | none => rfl
    | some m => simp [handleEvolutionMessageReceived, hf]
  · intro k j hk hj hg
    subst hk
    cases dm with
    | none => rfl
    | some m =>
      have hg' : containsSubstr j ['@', 'g', '.', 'u', 's'] = true := hg
      by_cases hf : k.fromMe
      · simp [handleEvolutionMessageReceived, hf]
      · simp [handleEvolutionMessageReceived, hf, hj, hg']
  · intro m s hc hs
    simp [extractText, truthyOpt, hc, hs]
  · intro m e t hco he ht hne
    simp only [extractText]
    rw [hco]
    simp [he, truthyOpt, ht, hne]
  · intro m hm htr
    subst hm
    cases dk with
    | none => rfl
    | some k =>
      by_cases hf : k.fromMe
      · simp [handleEvolutionMessageReceived, hf]
      · by_cases hg : (match k.remoteJid with
          | none => false
          | some j => containsSubstr j ['@', 'g', '.', 'u', 's']) = true
        · simp [handleEvolutionMessageReceived, hf, hg]
        · simp only [Bool.not_eq_true] at hg
          simp [handleEvolutionMessageReceived, hf, hg, htr]
  · intro k m hk hm hf hng hne
    subst hk; subst hm
    have hg : (match k.remoteJid with
        | none => false
        | some j => containsSubstr j ['@', 'g', '.', 'u', 's']) = false := by
      cases hj : k.remoteJid with
      | none => rfl
      | some j => exact hng j hj
    simp [handleEvolutionMessageReceived, hf, hg, hne]

/-- Witness for C5 at concrete payloads: a key-and-body-less payload and a
fromMe payload are dropped; a plain text message from an individual chat is
extracted. -/
theorem claim_C5_witness :
    handleEvolutionMessageReceived ⟨none, none⟩ = none ∧
    handleEvolutionMessageReceived
      ⟨some ⟨true, some "5511@s.whatsapp.net".toList, none⟩,
       some ⟨some "oi".toList, none⟩⟩ = none ∧
    handleEvolutionMessageReceived
      ⟨some ⟨false, some "5511@s.whatsapp.net".toList, none⟩,
       some ⟨some "1".toList, none⟩⟩ =
      some ⟨"5511".toList, "1".toList⟩ := by
  refine ⟨?_, ?_, ?_⟩
  · exact (claim_C5_upsert_normalizer ⟨none, none⟩).1 rfl rfl
  · exact (claim_C5_upsert_normalizer _).2.1 _ rfl rfl
  · have h := (claim_C5_upsert_normalizer
      ⟨some ⟨false, some "5511@s.whatsapp.net".toList, none⟩,
       some ⟨some "1".toList, none⟩⟩).2.2.2.2.2.2 _ _ rfl rfl rfl
      (by intro j hj; cases hj; decide) (by decide)
    rw [h]
    decide

/-- A `pickBy` fold starting from `init` returns a list member or `init`. -/
theorem pickBy_go_mem {α : Type} (keep : α → α → Bool) (l : List α) :
    ∀ (init : Option α) (q : α),
      l.foldl (fun cur s =>
        match cur with
        | none => some s
        | some c => if keep c s then some c else some s) init = some q →
      q ∈ l ∨ init = some q := by
  induction l with
  | nil => exact fun _ _ h => Or.inr h
  | cons x xs ih =>
    intro init q h
    simp only [List.foldl_cons] at h
    rcases ih _ q h with hx | hstep
    · exact Or.inl (List.mem_cons_of_mem _ hx)
    · cases init with
      | none =>
        have hxq : some x = some q := hstep
        injection hxq with hxq
        exact Or.inl (hxq ▸ List.mem_cons_self x xs)
      | some c =>
        have h2 : (if keep c x then some c else some x) = some q := hstep
        by_cases hk : keep c x
        · rw [if_pos hk] at h2
          exact Or.inr h2
        · rw [if_neg hk] at h2
          injection h2 with h2
          exact Or.inl (h2 ▸ List.mem_cons_self x xs)

/-- `pickBy` returns a member of its list. -/
theorem pickBy_mem {α : Type} {keep : α → α → Bool} {l : List α} {q : α}
    (h : pickBy keep l = some q) : q ∈ l := by
  rcases pickBy_go_mem keep l none q h with hx | hx
  · exact hx
  · cases hx

/-- Preservation is reflexive. -/
theorem queuePreserves_refl (l : List QItem) : queuePreserves l l :=
  fun q' hq' => ⟨q', hq', rfl, fun _ => rfl⟩

/-- Preservation composes. -/
theorem queuePreserves_trans {a b c : List QItem}
    (h1 : queuePreserves a b) (h2 : queuePreserves b c) : queuePreserves a c := by
  intro q'' hq''
  obtain ⟨q', hq', hid', hst'⟩ := h2 q'' hq''
  obtain ⟨q, hq, hid, hst⟩ := h1 q' hq'
  refine ⟨q, hq, hid.trans hid', fun hn => ?_⟩
  have hs := hst hn
  rw [hst' (by rw [hs]; exact hn), hs]

/-- A status write by id preserves terminal rows, provided every row with
the target id is Waiting. -/
theorem updateQueueStatus_preserves {db : Db} {now : Int} {qid : Nat} {st : QStatus}
    (hw : ∀ q ∈ db.queue, q.id = qid → q.status = QStatus.aguardando) :
    queuePreserves db.queue (updateQueueStatus db now qid st).queue := by
  intro q' hq'
  simp only [updateQueueStatus, List.mem_map] at hq'
  obtain ⟨q, hq, rfl⟩ := hq'
  by_cases hid : q.id = qid
  · refine ⟨q, hq, ?_, fun hn => absurd (hw q hq hid) hn⟩
    by_cases hs : st = QStatus.enviada <;> simp [hid, hs]
  · refine ⟨q, hq, ?_, ?_⟩ <;> simp [hid]

/-- A status write by id does not change the id column. -/
theorem updateQueueStatus_ids (db : Db) (now : Int) (qid : Nat) (st : QStatus) :
    (updateQueueStatus db now qid st).queue.map QItem.id = db.queue.map QItem.id := by
  simp only [updateQueueStatus, List.map_map]
  apply List.map_congr_left
  intro q _
  by_cases hid : q.id = qid <;> by_cases hs : st = QStatus.enviada <;>
    simp [hid, hs, Function.comp]

/-- The popped queue row is a Waiting member of the table. -/
theorem oldestWaitingFor_some {db : Db} {sid : Nat} {q : QItem}
    (h : oldestWaitingFor db sid = some q) :
    q ∈ db.queue ∧ q.status = QStatus.aguardando := by
  have hm := pickBy_mem h
  rw [List.mem_filter] at hm
  obtain ⟨hq, hp⟩ := hm
  simp only [Bool.and_eq_true, decide_eq_true_eq] at hp
  exact ⟨hq, hp.1.2⟩

/-- `processQueueItem` only moves Waiting rows, provided queue ids are
unique. -/
theorem processQueueItem_preserves (env : Env) (now : Int) (db : Db) (sid : Nat)
    (hnod : (db.queue.map QItem.id).Nodup) :
    queuePreserves db.queue (processQueueItem env now db sid).db.queue := by
  simp only [processQueueItem]
  split
  · exact queuePreserves_refl _
  · next q how =>
    obtain ⟨hqmem, hqw⟩ := oldestWaitingFor_some how
    have hw : ∀ r ∈ db.queue, r.id = q.id → r.status = QStatus.aguardando := by
      intro r hr hid
      have hrq : r = q := List.inj_on_of_nodup_map hnod hr hqmem hid
      rw [hrq]
      exact hqw
    split
    · exact queuePreserves_refl _
    · split
      · exact updateQueueStatus_preserves hw
      · split
        · exact updateQueueStatus_preserves hw
        · split
          · exact updateQueueStatus_preserves hw
          · split
            · split
              · exact updateQueueStatus_preserves hw
              · exact updateQueueStatus_preserves hw
            · exact updateQueueStatus_preserves hw

/-- `processQueueItem` does not change the id column of the queue. -/
theorem processQueueItem_ids (env : Env) (now : Int) (db : Db) (sid : Nat) :
    (processQueueItem env now db sid).db.queue.map QItem.id =
      db.queue.map QItem.id := by
  simp only [processQueueItem]
  split
  · rfl
  · next q _ =>
    split
    · rfl
    · split
      · exact updateQueueStatus_ids db now q.id QStatus.erro
      · split
        · exact updateQueueStatus_ids db now q.id QStatus.erro
        · split
          · exact updateQueueStatus_ids db now q.id QStatus.erro
          · split
            · split
              · exact updateQueueStatus_ids db now q.id QStatus.enviada
              · exact updateQueueStatus_ids db now q.id QStatus.erro
            · exact updateQueueStatus_ids db now q.id QStatus.erro

/-- The batch loop only moves Waiting rows. -/
theorem processQueueGo_preserves (env : Env) (now : Int) :
    ∀ (ids : List Nat) (db : Db) (effs : List Eff),
      (db.queue.map QItem.id).Nodup →
      queuePreserves db.queue (processQueueGo env now ids db effs).1.queue := by
  intro ids
  induction ids with
  | nil => exact fun _ _ _ => queuePreserves_refl _
  | cons sid rest ih =>
    intro db effs hnod
    simp only [processQueueGo]
    have h1 := processQueueItem_preserves env now db sid hnod
    have hnod' : ((processQueueItem env now db sid).db.queue.map QItem.id).Nodup := by
      rw [processQueueItem_ids]
      exact hnod
    exact queuePreserves_trans h1 (ih _ _ hnod')

/-- Cancellation only moves Waiting rows. -/
theorem cancelQueueItem_preserves (db : Db) (sid : Nat) :
    queuePreserves db.queue (cancelQueueItem db sid).queue := by
  intro q' hq'
  simp only [cancelQueueItem, List.mem_map] at hq'
  obtain ⟨q, hq, rfl⟩ := hq'
  by_cases hc : q.scheduleId = sid ∧ q.status = QStatus.aguardando
  · exact ⟨q, hq, by simp [hc], fun hn => absurd hc.2 hn⟩
  · exact ⟨q, hq, by simp [hc], by simp [hc]⟩

/-- Cancellation with no Waiting row for the schedule is the identity. -/
theorem cancelQueueItem_noop {db : Db} {sid : Nat}
    (h : ∀ q ∈ db.queue, q.scheduleId = sid → q.status ≠ QStatus.aguardando) :
    cancelQueueItem db sid = db := by
  simp only [cancelQueueItem]
  have hmap : db.queue.map (fun q =>
      if q.scheduleId = sid ∧ q.status = QStatus.aguardando then
        { q with status := QStatus.cancelada }
      else q) = db.queue := by
    rw [List.map_congr_left (g := id) ?_, List.map_id]
    intro q hq
    have hc : ¬(q.scheduleId = sid ∧ q.status = QStatus.aguardando) := by
      rintro ⟨h1, h2⟩
      exact h q hq h1 h2
    simp [hc]
  rw [hmap]

/-- C4: delivery-queue transitions are monotonic under every queue
operation — processQueueItem, processQueue and cancelQueueItem never change
the status of a row already in Sent, Cancelled or Error (rows move only out
of Waiting), and cancelQueueItem is an error-free no-op when no Waiting row
exists for the appointment.  Queue ids are assumed unique (primary key). -/
theorem claim_C4_queue_monotonic (env : Env) (now : Int) (db : Db)
    (scheduleId limit : Nat)
    (hnod : (db.queue.map QItem.id).Nodup) :
    queuePreserves db.queue (processQueueItem env now db scheduleId).db.queue ∧
    queuePreserves db.queue (processQueue env now db limit).1.queue ∧
    queuePreserves db.queue (cancelQueueItem db scheduleId).queue ∧
    ((∀ q ∈ db.queue, q.scheduleId = scheduleId → q.status ≠ QStatus.aguardando) →
      cancelQueueItem db scheduleId = db) :=
  ⟨processQueueItem_preserves env now db scheduleId hnod,
   by unfold processQueue; exact processQueueGo_preserves env now _ db [] hnod,
   cancelQueueItem_preserves db scheduleId,
   fun h => cancelQueueItem_noop h⟩

/-- Witness for C4: on a store whose only queue row is already Sent,
cancellation is a no-op. -/
theorem claim_C4_witness :
    cancelQueueItem
      ⟨[], [], [], [⟨1, 7, 42, 1, 3, QStatus.enviada, 0, some 0⟩], [], [], 2, 0⟩ 7 =
      ⟨[], [], [], [⟨1, 7, 42, 1, 3, QStatus.enviada, 0, some 0⟩], [], [], 2, 0⟩ :=
  (claim_C4_queue_monotonic envTrue 0
    ⟨[], [], [], [⟨1, 7, 42, 1, 3, QStatus.enviada, 0, some 0⟩], [], [], 2, 0⟩ 7 10
    (by decide)).2.2.2 (by decide)

/-- Insertion into the descending sort preserves membership. -/
theorem mem_insertMsgDesc {a m : WaMsg} {l : List WaMsg}
    (h : a ∈ insertMsgDesc m l) : a = m ∨ a ∈ l := by
  induction l with
  | nil => simpa [insertMsgDesc] using h
  | cons x xs ih =>
    simp only [insertMsgDesc] at h
    by_cases hc : m.createdAt > x.createdAt
    · rw [if_pos hc] at h
      exact List.mem_cons.mp h
    · rw [if_neg hc] at h
      rcases List.mem_cons.mp h with rfl | h2
      · exact Or.inr (List.mem_cons_self _ _)
      · rcases ih h2 with rfl | h3
        · exact Or.inl rfl
        · exact Or.inr (List.mem_cons_of_mem _ h3)

/-- Members of the descending sort come from the accumulator or the input. -/
theorem mem_sortMsgsDesc_go (l : List WaMsg) :
    ∀ (acc : List WaMsg) (a : WaMsg),
      a ∈ l.foldl (fun acc m => insertMsgDesc m acc) acc → a ∈ acc ∨ a ∈ l := by
  induction l with
  | nil => exact fun _ _ h => Or.inl h
  | cons x xs ih =>
    intro acc a h
    simp only [List.foldl_cons] at h
    rcases ih _ a h with hacc | hxs
    · rcases mem_insertMsgDesc hacc with rfl | h2
      · exact Or.inr (List.mem_cons_self _ _)
      · exact Or.inl h2
    · exact Or.inr (List.mem_cons_of_mem _ hxs)

/-- The descending sort only permutes its input. -/
theorem mem_sortMsgsDesc {a : WaMsg} {l : List WaMsg}
    (h : a ∈ sortMsgsDesc l) : a ∈ l := by
  rcases mem_sortMsgsDesc_go l [] a h with h0 | h0
  · cases h0
  · exact h0

/-- A message returned by `getLastSentToNumber` is a sent message of the
tenant in the message table whose joined patient matches the cleaned inbound
number by 8-digit suffix. -/
theorem getLastSentToNumber_some {db : Db} {now : Int} {ownerId : Nat}
    {phone : Str} {m : WaMsg}
    (h : getLastSentToNumber db now ownerId phone = some m) :
    m ∈ db.messages ∧ m.owner = ownerId ∧ m.direction = MsgDir.sent ∧
    ∃ p, msgPatient db m = some p ∧
      msgMatchesNumber (cleanInbound phone) p = true := by
  simp only [getLastSentToNumber] at h
  have hmem := List.mem_of_find?_eq_some h
  have hpred := List.find?_some h
  have hrows : m ∈ db.messages.filter (fun m =>
      decide (m.owner = ownerId) && decide (m.direction = MsgDir.sent) &&
      decide (now - m.createdAt ≤ hoursToMs 48) && (msgPatient db m).isSome) :=
    mem_sortMsgsDesc (List.mem_of_mem_take hmem)
  rw [List.mem_filter] at hrows
  obtain ⟨hmsg, hflt⟩ := hrows
  simp only [Bool.and_eq_true, decide_eq_true_eq] at hflt
  refine ⟨hmsg, hflt.1.1.1, hflt.1.1.2, ?_⟩
  cases hp : msgPatient db m with
  | none => rw [hp] at hpred; cases hpred
  | some p =>
    rw [hp] at hpred
    exact ⟨p, rfl, hpred⟩

/-- C9 (implicit reply window): when every sent message of the tenant whose
joined patient matches the sender's number is older than 24 hours, the
incoming handler returns action ignored with no state change and no outbound
send — the 24-hour window the spec never states. -/
theorem claim_C9_reply_window (env : Env) (now : Int) (db : Db) (ownerId : Nat)
    (sender text : Str)
    (hwin : ∀ m ∈ db.messages, m.owner = ownerId → m.direction = MsgDir.sent →
      ∀ p, msgPatient db m = some p →
        msgMatchesNumber (cleanInbound sender) p = true →
        now - m.createdAt > hoursToMs 24) :
    (handleMessage env now db ownerId sender text).resp.action = HAction.ignored ∧
    (handleMessage env now db ownerId sender text).db = db ∧
    (handleMessage env now db ownerId sender text).effs = [] := by
  by_cases htext : text = []
  · simp [handleMessage, htext]
  · cases hlast : getLastSentToNumber db now ownerId sender with
    | none => simp [handleMessage, htext, hlast]
    | some m =>
      obtain ⟨hmem, hown, hdir, p, hp, hmatch⟩ := getLastSentToNumber_some hlast
      have hold := hwin m hmem hown hdir p hp hmatch
      simp [handleMessage, htext, hlast, hold]

/-- Witness for C9: a store whose only matching sent message is 25 hours
old. -/
theorem claim_C9_witness :
    (handleMessage envTrue (1000 + hoursToMs 25)
        dbTerm 42 "5511999998888".toList "1".toList).resp.action =
      HAction.ignored ∧
    (handleMessage envTrue (1000 + hoursToMs 25)
        dbTerm 42 "5511999998888".toList "1".toList).db = dbTerm ∧
    (handleMessage envTrue (1000 + hoursToMs 25)
        dbTerm 42 "5511999998888".toList "1".toList).effs = [] :=
  claim_C9_reply_window envTrue (1000 + hoursToMs 25) dbTerm 42
    "5511999998888".toList "1".toList (by decide)

/-- C1 counterexample: with the appointment already at terminal status 6, an
all-digit reply other than 1/2 takes the fallback path — the handler returns
action fallback (not ignored) and sends the clarification message, so the
terminal-status short-circuit is not applied before the fallback side
effect. -/
theorem claim_C1_counterexample :
    (∀ s ∈ dbTerm.schedules, s.sts = 6 ∨ s.sts = 7) ∧
    (handleMessage envTrue 1000 dbTerm 42 "5511999998888".toList
      "3".toList).resp.action = HAction.fallback ∧
    (handleMessage envTrue 1000 dbTerm 42 "5511999998888".toList
      "3".toList).resp.action ≠ HAction.ignored ∧
    (handleMessage envTrue 1000 dbTerm 42 "5511999998888".toList
      "3".toList).effs ≠ [] := by
  decide

/-- C1 amended: for a store whose appointments are all at terminal status 6
or 7, the handler with any reply text that does not classify as fallback
(trimmed text "1", "2", or not an all-digit string) leaves the whole store —
appointment statuses and queue included — unchanged, performs no send, and
returns action ignored; the terminal-status check happens before any side
effect of the confirm/reschedule path.  (All-digit replies other than 1/2
instead take the fallback path without any terminal-status check.) -/
theorem claim_C1_amended (env : Env) (now : Int) (db : Db) (ownerId : Nat)
    (sender text : Str)
    (hterm : ∀ s ∈ db.schedules, s.sts = 6 ∨ s.sts = 7)
    (hnofb : (classifyReply (trimStr text)).action ≠ RAction.fallback) :
    (handleMessage env now db ownerId sender text).resp.action = HAction.ignored ∧
    (handleMessage env now db ownerId sender text).db = db ∧
    (handleMessage env now db ownerId sender text).effs = [] := by
  by_cases htext : text = []
  · simp [handleMessage, htext]
  · cases hlast : getLastSentToNumber db now ownerId sender with
    | none => simp [handleMessage, htext, hlast]
    | some m =>
      by_cases hw : now - m.createdAt > hoursToMs 24
      · simp [handleMessage, htext, hlast, hw]
      · cases hcls : (classifyReply (trimStr text)).action with
        | fallback => exact absurd hcls hnofb
        | ignore => simp [handleMessage, htext, hlast, hw, hcls]
        | confirm =>
          cases hsch : scheduleGetById db m.scheduleId with
          | none => simp [handleMessage, htext, hlast, hw, hcls, hsch]
          | some s =>
            have hs : s.sts = 6 ∨ s.sts = 7 :=
              hterm s (List.mem_of_find?_eq_some hsch)
            simp [handleMessage, htext, hlast, hw, hcls, hsch, hs]
        | reschedule =>
          cases hsch : scheduleGetById db m.scheduleId with
          | none => simp [handleMessage, htext, hlast, hw, hcls, hsch]
          | some s =>
            have hs : s.sts = 6 ∨ s.sts = 7 :=
              hterm s (List.mem_of_find?_eq_some hsch)
            simp [handleMessage, htext, hlast, hw, hcls, hsch, hs]

/-- Witness for C1 amended: the terminal store with reply "1" is ignored
unchanged. -/
theorem claim_C1_amended_witness :
    (handleMessage envTrue 1000 dbTerm 42 "5511999998888".toList
      "1".toList).resp.action = HAction.ignored ∧
    (handleMessage envTrue 1000 dbTerm 42 "5511999998888".toList
      "1".toList).db = dbTerm ∧
    (handleMessage envTrue 1000 dbTerm 42 "5511999998888".toList
      "1".toList).effs = [] :=
  claim_C1_amended envTrue 1000 dbTerm 42 "5511999998888".toList "1".toList
    (by decide) (by decide)

/-- Lexicographic string order is total. -/
theorem strLe_total : ∀ a b : Str, strLe a b = true ∨ strLe b a = true := by
  intro a
  induction a with
  | nil => intro b; left; rfl
  | cons x xs ih =>
    intro b
    cases b with
    | nil => right; rfl
    | cons y ys =>
      by_cases hxy : x = y
      · subst hxy
        rcases ih ys with h | h
        · left; simpa [strLe] using h
        · right; simpa [strLe] using h
      · rcases lt_or_gt_of_ne hxy with h | h
        · left; simp [strLe, hxy, h]
        · right; simp [strLe, Ne.symm hxy, h]

/-- Lexicographic string order is transitive. -/
theorem strLe_trans : ∀ a b c : Str,
    strLe a b = true → strLe b c = true → strLe a c = true := by
  intro a
  induction a with
  | nil => intro b c _ _; rfl
  | cons x xs ih =>
    intro b c hab hbc
    cases b with
    | nil => simp [strLe] at hab
    | cons y ys =>
      cases c with
      | nil => simp [strLe] at hbc
      | cons z zs =>
        simp only [strLe] at hab hbc ⊢
        by_cases hxy : x = y
        · subst hxy
          rw [if_pos rfl] at hab
          by_cases hyz : x = z
          · subst hyz
            rw [if_pos rfl] at hbc ⊢
            exact ih ys zs hab hbc
          · rw [if_neg hyz] at hbc ⊢
            exact hbc
        · rw [if_neg hxy] at hab
          have hxylt : x < y := by simpa using hab
          by_cases hyz : y = z
          · subst hyz
            rw [if_neg hxy]
            simpa using hxylt
          · rw [if_neg hyz] at hbc
            have hyzlt : y < z := by simpa using hbc
            have hxz : x < z := lt_trans hxylt hyzlt
            rw [if_neg (ne_of_lt hxz)]
            simpa using hxz

/-- The correlator's ordering key is total. -/
theorem schedKeyLe_total : ∀ a b : Schedule,
    schedKeyLe a b = true ∨ schedKeyLe b a = true := by
  intro a b
  rcases Nat.lt_trichotomy a.dates b.dates with h | h | h
  · left; simp [schedKeyLe, h]
  · rcases strLe_total a.times b.times with ht | ht
    · left; simp [schedKeyLe, h, ht]
    · right; simp [schedKeyLe, h.symm, ht]
  · right; simp [schedKeyLe, h]

/-- The correlator's ordering key is transitive. -/
theorem schedKeyLe_trans : ∀ a b c : Schedule,
    schedKeyLe a b = true → schedKeyLe b c = true → schedKeyLe a c = true := by
  intro a b c hab hbc
  simp only [schedKeyLe, Bool.or_eq_true, Bool.and_eq_true, decide_eq_true_eq]
    at hab hbc ⊢
  rcases hab with hab | ⟨habe, habt⟩
  · rcases hbc with hbc | ⟨hbce, _⟩
    · exact Or.inl (lt_trans hab hbc)
    · exact Or.inl (hbce ▸ hab)
  · rcases hbc with hbc | ⟨hbce, hbct⟩
    · exact Or.inl (habe ▸ hbc)
    · exact Or.inr ⟨habe.trans hbce, strLe_trans _ _ _ habt hbct⟩

/-- A `pickBy` fold started from a candidate returns a minimum with respect
to a total transitive `keep`. -/
theorem pickBy_go_min {α : Type} (keep : α → α → Bool)
    (htot : ∀ a b, keep a b = true ∨ keep b a = true)
    (htrans : ∀ a b c, keep a b = true → keep b c = true → keep a c = true)
    (l : List α) :
    ∀ (c q : α),
      l.foldl (fun cur s =>
        match cur with
        | none => some s
        | some c => if keep c s then some c else some s) (some c) = some q →
      keep q c = true ∧ ∀ x ∈ l, keep q x = true := by
  induction l with
  | nil =>
    intro c q h
    have hcq : some c = some q := h
    injection hcq with hcq
    subst hcq
    exact ⟨(htot c c).elim id id, fun x hx => absurd hx (List.not_mem_nil x)⟩
  | cons x xs ih =>
    intro c q h
    simp only [List.foldl_cons] at h
    by_cases hk : keep c x
    · have h' : xs.foldl (fun cur s =>
          match cur with
          | none => some s
          | some c => if keep c s then some c else some s)
          (if keep c x then some c else some x) = some q := h
      rw [if_pos hk] at h'
      obtain ⟨hqc, hall⟩ := ih c q h'
      refine ⟨hqc, fun y hy => ?_⟩
      rcases List.mem_cons.mp hy with rfl | h3
      · exact htrans q c y hqc hk
      · exact hall y h3
    · have h' : xs.foldl (fun cur s =>
          match cur with
          | none => some s
          | some c => if keep c s then some c else some s)
          (if keep c x then some c else some x) = some q := h
      rw [if_neg hk] at h'
      obtain ⟨hqx, hall⟩ := ih x q h'
      have hxc : keep x c = true := (htot c x).resolve_left (by simpa using hk)
      refine ⟨htrans q x c hqx hxc, fun y hy => ?_⟩
      rcases List.mem_cons.mp hy with rfl | h3
      · exact hqx
      · exact hall y h3

/-- `pickBy` returns a minimum with respect to a total transitive `keep`. -/
theorem pickBy_min {α : Type} (keep : α → α → Bool)
    (htot : ∀ a b, keep a b = true ∨ keep b a = true)
    (htrans : ∀ a b c, keep a b = true → keep b c = true → keep a c = true)
    {l : List α} {q : α} (h : pickBy keep l = some q) :
    ∀ x ∈ l, keep q x = true := by
  cases l with
  | nil => cases h
  | cons x xs =>
    have h' : xs.foldl (fun cur s =>
        match cur with
        | none => some s
        | some c => if keep c s then some c else some s) (some x) = some q := h
    obtain ⟨hqx, hall⟩ := pickBy_go_min keep htot htrans xs x q h'
    intro y hy
    rcases List.mem_cons.mp hy with rfl | h3
    · exact hqx
    · exact hall y h3

/-- A `pickBy` fold started from a candidate never returns `none`. -/
theorem pickBy_go_isSome {α : Type} (keep : α → α → Bool) (l : List α) :
    ∀ c : α, (l.foldl (fun cur s =>
      match cur with
      | none => some s
      | some c => if keep c s then some c else some s) (some c)).isSome = true := by
  induction l with
  | nil => intro c; rfl
  | cons x xs ih =>
    intro c
    simp only [List.foldl_cons]
    by_cases hk : keep c x
    · rw [if_pos hk]
      exact ih c
    · rw [if_neg hk]
      exact ih x

/-- `pickBy` is `none` only on the empty list. -/
theorem pickBy_eq_none {α : Type} {keep : α → α → Bool} {l : List α}
    (h : pickBy keep l = none) : l = [] := by
  cases l with
  | nil => rfl
  | cons x xs =>
    have hs := pickBy_go_isSome keep xs x
    have h' : xs.foldl (fun cur s =>
        match cur with
        | none => some s
        | some c => if keep c s then some c else some s) (some x) = none := h
    rw [h'] at hs
    cases hs

/-- C3 counterexample: the correlator does not match "after the same
stripping by shared 8-digit suffix".  Scenario A: a patient phone written
with a dot (removed by full non-digit stripping but not by the query's
REPLACE chain) is missed by the code although the spec's matcher finds it.
Scenario B: a phone containing the suffix strictly inside (LIKE substring
but not a shared suffix) is matched by the code although the spec's matcher
rejects it. -/
theorem claim_C3_counterexample :
    (findPendingScheduleForNumber dbCorrA 100 1 "99998888".toList = none ∧
     specFindPendingAppointment dbCorrA 100 1 "99998888".toList = some schedA) ∧
    (findPendingScheduleForNumber dbCorrB 100 1 "99998888".toList = some schedB ∧
     specFindPendingAppointment dbCorrB 100 1 "99998888".toList = none) ∧
    findPendingScheduleForNumber dbCorrA 100 1 "99998888".toList ≠
      specFindPendingAppointment dbCorrA 100 1 "99998888".toList := by
  refine ⟨⟨by decide, by decide⟩, ⟨by decide, by decide⟩, by decide⟩

/-- C3 amended: the correlator normalizes the inbound phone (strip
non-digits, drop a leading 55 at lengths 13/12), takes the last 8 digits,
and over the tenant's appointments with status not in {6, 7}, date at least
yesterday and an existing patient, matches when either patient phone —
stripped only of hyphens, spaces and parentheses — CONTAINS that suffix as a
substring; it returns an appointment that matches and is (dates, times)-least
among all matching ones, and returns none exactly when no appointment
matches. -/
theorem claim_C3_amended (db : Db) (today ownerId : Nat) (phone : Str) :
    (∀ r, findPendingScheduleForNumber db today ownerId phone = some r →
      r ∈ db.schedules ∧
      correlatorRowMatch db today ownerId (lastN 8 (cleanInbound phone)) r = true ∧
      ∀ s ∈ db.schedules,
        correlatorRowMatch db today ownerId (lastN 8 (cleanInbound phone)) s = true →
        schedKeyLe r s = true) ∧
    (findPendingScheduleForNumber db today ownerId phone = none →
      ∀ s ∈ db.schedules,
        correlatorRowMatch db today ownerId (lastN 8 (cleanInbound phone)) s = false) := by
  constructor
  · intro r h
    simp only [findPendingScheduleForNumber] at h
    have hmem := pickBy_mem h
    have hmin := pickBy_min schedKeyLe schedKeyLe_total schedKeyLe_trans h
    rw [List.mem_filter] at hmem
    obtain ⟨hr, hmatch⟩ := hmem
    exact ⟨hr, hmatch, fun s hs hm => hmin s (List.mem_filter.mpr ⟨hs, hm⟩)⟩
  · intro h s hs
    simp only [findPendingScheduleForNumber] at h
    have hempty := pickBy_eq_none h
    by_contra hm
    rw [Bool.not_eq_false] at hm
    have : s ∈ db.schedules.filter
        (correlatorRowMatch db today ownerId (lastN 8 (cleanInbound phone))) :=
      List.mem_filter.mpr ⟨hs, hm⟩
    rw [hempty] at this
    cases this

/-- Witness for C3 amended: in scenario B the returned appointment is the
matching minimum. -/
theorem claim_C3_amended_witness :
    schedB ∈ dbCorrB.schedules ∧
    correlatorRowMatch dbCorrB 100 1 (lastN 8 (cleanInbound "99998888".toList))
      schedB = true ∧
    ∀ s ∈ dbCorrB.schedules,
      correlatorRowMatch dbCorrB 100 1 (lastN 8 (cleanInbound "99998888".toList))
        s = true → schedKeyLe schedB s = true :=
  (claim_C3_amended dbCorrB 100 1 "99998888".toList).1 schedB (by decide)

/-- Lower-casing maps only the opening brace to an opening brace. -/
theorem lowerCh_eq_lbrace {c : Char} (h : lowerCh c = '\x7b') : c = '\x7b' := by
  unfold lowerCh at h
  split_ifs at h with hc
  · exfalso
    simp only [Bool.and_eq_true, decide_eq_true_eq] at hc
    obtain ⟨h1, h2⟩ := hc
    obtain ⟨t, ht⟩ : ∃ t, c.toNat = t := ⟨c.toNat, rfl⟩
    rw [ht] at h h1 h2
    interval_cases t <;> exact absurd h (by decide)
  · exact h

/-- A replacement without a dollar sign is inserted verbatim. -/
theorem getSubstitution_noDollar {matched before after : Str} :
    ∀ rep : Str, noDollar rep = true →
      getSubstitution rep matched before after = rep := by
  intro rep
  induction rep with
  | nil => intro _; rfl
  | cons c rest ih =>
    intro h
    simp only [noDollar, List.all_cons, Bool.and_eq_true, decide_eq_true_eq] at h
    cases rest with
    | nil =>
      show (if c = '$' then ['$'] else [c]) = [c]
      rw [if_neg h.1]
    | cons d rest2 =>
      have hstep : getSubstitution (c :: d :: rest2) matched before after =
          if c = '$' then
            if d = '$' then '$' :: getSubstitution rest2 matched before after
            else if d = '&' then
              matched ++ getSubstitution rest2 matched before after
            else if d = '\x60' then
              before ++ getSubstitution rest2 matched before after
            else if d = '\x27' then
              after ++ getSubstitution rest2 matched before after
            else '$' :: d :: getSubstitution rest2 matched before after
          else c :: getSubstitution (d :: rest2) matched before after := rfl
      rw [hstep, if_neg h.1, ih h.2]

/-- One scanner step at skip 0: definitional unfolding. -/
theorem raciGo_cons (pat rep done : Str) (c : Char) (rest : Str) :
    raciGo pat rep done 0 (c :: rest) =
      if ciStarts pat (c :: rest) = true then
        getSubstitution rep ((c :: rest).take pat.length) done.reverse
            ((c :: rest).drop pat.length) ++
          raciGo pat rep (c :: done) (pat.length - 1) rest
      else c :: raciGo pat rep (c :: done) 0 rest := rfl

/-- Skipping exactly the length of a prefix resumes scanning after it, the
prefix flowing into the consumed context. -/
theorem raciGo_skip {pat rep : Str} :
    ∀ (s t done : Str), raciGo pat rep done s.length (s ++ t) =
      raciGo pat rep (s.reverse ++ done) 0 t := by
  intro s
  induction s with
  | nil => intro t done; rfl
  | cons c cs ih =>
    intro t done
    have hstep : raciGo pat rep done (c :: cs).length ((c :: cs) ++ t) =
        raciGo pat rep (c :: done) cs.length (cs ++ t) := rfl
    have hdone : cs.reverse ++ (c :: done) = (c :: cs).reverse ++ done := by
      simp
    rw [hstep, ih t (c :: done), hdone]

/-- A string without an opening brace scans transparently for a pattern that
begins with an opening brace. -/
theorem raciGo_append_clean {q1 : Char} {qr rep : Str} :
    ∀ (s t done : Str), noLB s = true →
      raciGo ('\x7b' :: q1 :: qr) rep done 0 (s ++ t) =
        s ++ raciGo ('\x7b' :: q1 :: qr) rep (s.reverse ++ done) 0 t := by
  intro s
  induction s with
  | nil => intro t done _; rfl
  | cons c cs ih =>
    intro t done hs
    simp only [noLB, List.all_cons, Bool.and_eq_true, decide_eq_true_eq] at hs
    have hci : ciEqCh '\x7b' c = false := by
      apply decide_eq_false
      intro heq
      have h1 : lowerCh c = '\x7b' := by
        rw [← heq]
        decide
      exact hs.1 (lowerCh_eq_lbrace h1)
    have hcs : ciStarts ('\x7b' :: q1 :: qr) (c :: (cs ++ t)) = false := by
      show (ciEqCh '\x7b' c && ciStarts (q1 :: qr) (cs ++ t)) = false
      rw [hci, Bool.false_and]
    have hdone : cs.reverse ++ (c :: done) = (c :: cs).reverse ++ done := by
      simp
    rw [List.cons_append, raciGo_cons, hcs]
    simp only [Bool.false_eq_true, if_false]
    rw [ih t (c :: done) hs.2, hdone, List.cons_append]

/-- A case-variant of the pattern matches it case-insensitively. -/
theorem ciStarts_of_map_eq :
    ∀ (pat occ t : Str), occ.map lowerCh = pat.map lowerCh →
      ciStarts pat (occ ++ t) = true := by
  intro pat
  induction pat with
  | nil => intro occ t _; rfl
  | cons p ps ih =>
    intro occ t h
    cases occ with
    | nil => simp at h
    | cons o os =>
      simp only [List.map_cons, List.cons.injEq] at h
      show (ciEqCh p o && ciStarts ps (os ++ t)) = true
      rw [ih os t h.2, Bool.and_true]
      exact decide_eq_true h.1.symm

/-- Scanning at a case-variant occurrence of the pattern emits the
substituted replacement (with the occurrence as the matched text and the
consumed context as the text before it) and consumes exactly the
occurrence. -/
theorem raciGo_occ {pat rep occ : Str} (hpat : pat ≠ [])
    (h : occ.map lowerCh = pat.map lowerCh) (t done : Str) :
    raciGo pat rep done 0 (occ ++ t) =
      getSubstitution rep occ done.reverse t ++
        raciGo pat rep (occ.reverse ++ done) 0 t := by
  cases occ with
  | nil =>
    cases pat with
    | nil => exact absurd rfl hpat
    | cons p ps => simp at h
  | cons o os =>
    have hplen : pat.length = os.length + 1 := by
      have hl := congrArg List.length h
      simp only [List.length_map, List.length_cons] at hl
      omega
    have hci : ciStarts pat (o :: (os ++ t)) = true := by
      have h2 := ciStarts_of_map_eq pat (o :: os) t h
      rwa [List.cons_append] at h2
    have hdone : os.reverse ++ (o :: done) = (o :: os).reverse ++ done := by
      simp
    rw [List.cons_append, raciGo_cons, hci]
    simp only [if_true]
    rw [hplen]
    simp only [Nat.add_sub_cancel, List.take_succ_cons, List.drop_succ_cons,
      List.take_left, List.drop_left]
    rw [raciGo_skip os t (o :: done), hdone]

/-- Scanning passes over a case-variant occurrence of a placeholder whose
second character differs from the scanned pattern's. -/
theorem raciGo_other {q1 : Char} {qr rep : Str} {o0 o1 : Char} {os t done : Str}
    (ho1 : ciEqCh q1 o1 = false) (hno : noLB (o1 :: os) = true) :
    raciGo ('\x7b' :: q1 :: qr) rep done 0 ((o0 :: o1 :: os) ++ t) =
      (o0 :: o1 :: os) ++
        raciGo ('\x7b' :: q1 :: qr) rep ((o0 :: o1 :: os).reverse ++ done) 0 t := by
  have hci : ciStarts ('\x7b' :: q1 :: qr) (o0 :: (o1 :: (os ++ t))) = false := by
    show (ciEqCh '\x7b' o0 && (ciEqCh q1 o1 && ciStarts qr (os ++ t))) = false
    rw [ho1, Bool.false_and, Bool.and_false]
  have hsplit : (o0 :: o1 :: os) ++ t = o0 :: (o1 :: (os ++ t)) := by
    simp
  rw [hsplit, raciGo_cons, hci]
  simp only [Bool.false_eq_true, if_false]
  have hinner : o1 :: (os ++ t) = (o1 :: os) ++ t := by
    simp
  rw [hinner, raciGo_append_clean (o1 :: os) t (o0 :: done) hno]
  have hdone : (o1 :: os).reverse ++ (o0 :: done) = (o0 :: o1 :: os).reverse ++ done := by
    simp
  rw [hdone]
  simp

/-- Strings whose lower-casing lands in a brace-free list are brace-free. -/
theorem noLB_of_map {s : Str} {w : Str} (h : s.map lowerCh = w)
    (hw : ∀ c ∈ w, c ≠ '\x7b') : noLB s = true := by
  simp only [noLB, List.all_eq_true, decide_eq_true_eq]
  intro c hc hceq
  subst hceq
  have hmem : lowerCh '\x7b' ∈ s.map lowerCh := List.mem_map_of_mem _ hc
  rw [h] at hmem
  have hl : lowerCh '\x7b' = '\x7b' := by decide
  rw [hl] at hmem
  exact hw _ hmem rfl

/-- A placeholder pattern is its opening brace, its distinguishing letter,
then its tail. -/
theorem phPat_shape (q : PH) : phPat q = '\x7b' :: phSnd q :: phTail q := by
  cases q <;> rfl

/-- Placeholder patterns are non-empty. -/
theorem phPat_ne_nil (p : PH) : phPat p ≠ [] := by
  cases p <;> simp [phPat]

/-- Shape of a case-variant occurrence: an opening brace, a letter that
lower-cases to the placeholder's distinguishing letter, and a brace-free
remainder. -/
theorem occ_shape {p : PH} {occ : Str}
    (h : occ.map lowerCh = (phPat p).map lowerCh) :
    ∃ o0 o1 os, occ = o0 :: o1 :: os ∧ lowerCh o0 = '\x7b' ∧
      lowerCh o1 = phSnd p ∧ noLB (o1 :: os) = true := by
  have hr : (phPat p).map lowerCh = '\x7b' :: phSnd p :: (phTail p).map lowerCh := by
    cases p <;> decide
  rw [hr] at h
  cases occ with
  | nil => simp at h
  | cons o0 rest =>
    cases rest with
    | nil => simp at h
    | cons o1 os =>
      simp only [List.map_cons, List.cons.injEq] at h
      refine ⟨o0, o1, os, rfl, h.1, h.2.1, ?_⟩
      refine noLB_of_map (w := phSnd p :: (phTail p).map lowerCh) ?_ ?_
      · simp [h.2.1, h.2.2]
      · cases p <;> decide

/-- Distinct placeholders disagree case-insensitively at their second
character. -/
theorem ciEqCh_phSnd_ne {p q : PH} (hne : p ≠ q) {o1 : Char}
    (ho : lowerCh o1 = phSnd p) : ciEqCh (phSnd q) o1 = false := by
  apply decide_eq_false
  intro heq
  rw [ho] at heq
  cases p <;> cases q <;> first
    | exact hne rfl
    | exact absurd heq (by decide)

/-- A pass keeps segments wellformed when the replacement is brace-free. -/
theorem passSubst_ok {q : PH} {rep : Str} (hrep : noLB rep = true)
    {segs : List TSeg} (h : ∀ sg ∈ segs, segOk sg = true) :
    ∀ sg ∈ passSubst q rep segs, segOk sg = true := by
  intro sg hsg
  simp only [passSubst, List.mem_map] at hsg
  obtain ⟨sg0, h0, hEq⟩ := hsg
  subst hEq
  cases sg0 with
  | lit s => exact h _ h0
  | ph p occ =>
    by_cases hpq : p = q
    · simp [hpq, segOk, hrep]
    · simpa [hpq] using h _ h0

/-- One global case-insensitive replacement pass over a wellformed segment
list with a dollar-free replacement substitutes exactly the targeted
placeholder's occurrences. -/
theorem raciGo_pass {q : PH} {rep : Str} (hrep : noDollar rep = true) :
    ∀ (segs : List TSeg) (done : Str), (∀ sg ∈ segs, segOk sg = true) →
      raciGo (phPat q) rep done 0 (buildT segs) =
        buildT (passSubst q rep segs) := by
  intro segs
  induction segs with
  | nil => intro done _; rfl
  | cons sg rest ih =>
    intro done hok
    have hokr : ∀ s ∈ rest, segOk s = true :=
      fun s hs => hok s (List.mem_cons_of_mem _ hs)
    have hsg := hok sg (List.mem_cons_self _ _)
    cases sg with
    | lit s =>
      have hs : noLB s = true := hsg
      show raciGo (phPat q) rep done 0 (s ++ buildT rest) =
        s ++ buildT (passSubst q rep rest)
      rw [phPat_shape q, raciGo_append_clean s _ done hs, ← phPat_shape q,
        ih _ hokr]
    | ph p occ =>
      have hocc : occ.map lowerCh = (phPat p).map lowerCh := by
        simpa [segOk] using hsg
      by_cases hpq : p = q
      · subst hpq
        have hps : passSubst p rep (TSeg.ph p occ :: rest) =
            TSeg.lit rep :: passSubst p rep rest := by
          simp [passSubst]
        rw [hps]
        show raciGo (phPat p) rep done 0 (occ ++ buildT rest) =
          rep ++ buildT (passSubst p rep rest)
        rw [raciGo_occ (phPat_ne_nil p) hocc (buildT rest) done,
          getSubstitution_noDollar rep hrep, ih _ hokr]
      · obtain ⟨o0, o1, os, hshape, ho0, ho1, hno⟩ := occ_shape hocc
        subst hshape
        have hps : passSubst q rep (TSeg.ph p (o0 :: o1 :: os) :: rest) =
            TSeg.ph p (o0 :: o1 :: os) :: passSubst q rep rest := by
          simp [passSubst, hpq]
        rw [hps]
        show raciGo (phPat q) rep done 0 ((o0 :: o1 :: os) ++ buildT rest) =
          (o0 :: o1 :: os) ++ buildT (passSubst q rep rest)
        rw [phPat_shape q, raciGo_other (ciEqCh_phSnd_ne hpq ho1) hno,
          ← phPat_shape q, ih _ hokr]

/-- After the four passes in order, every placeholder occurrence of a
wellformed segment list has become its supplied value. -/
theorem buildT_final (v : TVals) :
    ∀ segs : List TSeg,
      buildT (passSubst PH.procedimentos v.procedimentos
        (passSubst PH.hora v.hora (passSubst PH.data v.data
          (passSubst PH.nome v.nome segs)))) = buildR v segs := by
  intro segs
  induction segs with
  | nil => rfl
  | cons sg rest ih =>
    cases sg with
    | lit s =>
      show s ++ buildT (passSubst PH.procedimentos v.procedimentos
        (passSubst PH.hora v.hora (passSubst PH.data v.data
          (passSubst PH.nome v.nome rest)))) = s ++ buildR v rest
      rw [ih]
    | ph p occ =>
      cases p <;> exact congrArg (_ ++ ·) ih

/-- Scanning a string with no case-insensitive occurrence of the pattern is
the identity. -/
theorem raciGo_noOcc {pat rep : Str} :
    ∀ (s done : Str), occursCI pat s = false → raciGo pat rep done 0 s = s := by
  intro s
  induction s with
  | nil => intro done _; rfl
  | cons c rest ih =>
    intro done h
    have h0 : (ciStarts pat (c :: rest) || occursCI pat rest) = false := h
    rw [Bool.or_eq_false_iff] at h0
    rw [raciGo_cons, h0.1]
    simp only [Bool.false_eq_true, if_false]
    rw [ih (c :: done) h0.2]

/-- C10 counterexample, two ways the claim's "replaces every occurrence with
the supplied value, leaves all other characters unchanged" fails on the
code.  Sequential rescan: with the nome value itself containing
"\x7bdata\x7d", the renderer substitutes the injected placeholder in the
later pass.  Dollar substitution: with the nome value "$&", JS replace
inserts the matched text instead of the supplied value. -/
theorem claim_C10_counterexample :
    (processTemplate "{nome}".toList
       ⟨"{data}".toList, "X".toList, "h".toList, "Consulta".toList⟩ = "X".toList ∧
     renderSimul "{nome}".toList
       ⟨"{data}".toList, "X".toList, "h".toList, "Consulta".toList⟩ =
       "{data}".toList ∧
     processTemplate "{nome}".toList
       ⟨"{data}".toList, "X".toList, "h".toList, "Consulta".toList⟩ ≠
     renderSimul "{nome}".toList
       ⟨"{data}".toList, "X".toList, "h".toList, "Consulta".toList⟩) ∧
    (processTemplate "{nome}".toList
       ⟨"$&".toList, "X".toList, "h".toList, "Consulta".toList⟩ =
       "{nome}".toList ∧
     renderSimul "{nome}".toList
       ⟨"$&".toList, "X".toList, "h".toList, "Consulta".toList⟩ = "$&".toList ∧
     processTemplate "{nome}".toList
       ⟨"$&".toList, "X".toList, "h".toList, "Consulta".toList⟩ ≠
     renderSimul "{nome}".toList
       ⟨"$&".toList, "X".toList, "h".toList, "Consulta".toList⟩) := by
  refine ⟨⟨by decide, by decide, by decide⟩, ⟨by decide, by decide, by decide⟩⟩

/-- C10 amended: the renderer applies global case-insensitive replacements of
the four placeholders sequentially (nome, data, hora, procedimentos), each
replacement string subject to JS dollar substitution, so a placeholder
occurrence introduced by an earlier substituted value is itself substituted
and a value containing dollar escapes is rewritten; for templates made of
brace-free literal runs and placeholder occurrences in any character case,
with supplied values free of braces and of dollar signs, every occurrence is
replaced by its supplied value and all other characters are unchanged; a
template with no occurrence of any placeholder (unrecognized placeholders
included) is returned verbatim; and a missing or empty procedures field
renders as the default "Consulta". -/
theorem claim_C10_amended (segs : List TSeg) (v : TVals)
    (hs : ∀ sg ∈ segs, segOk sg = true)
    (hn : noLB v.nome = true) (hd : noLB v.data = true)
    (hh : noLB v.hora = true) (hp : noLB v.procedimentos = true)
    (hnd : noDollar v.nome = true) (hdd : noDollar v.data = true)
    (hhd : noDollar v.hora = true) (hpd : noDollar v.procedimentos = true) :
    processTemplate (buildT segs) v = buildR v segs ∧
    (∀ t : Str, occursCI "{nome}".toList t = false →
      occursCI "{data}".toList t = false →
      occursCI "{hora}".toList t = false →
      occursCI "{procedimentos}".toList t = false →
      processTemplate t v = t) ∧
    procOrDefault none = "Consulta".toList ∧
    procOrDefault (some []) = "Consulta".toList := by
  refine ⟨?_, ?_, rfl, rfl⟩
  · show raciGo (phPat PH.procedimentos) v.procedimentos [] 0
      (raciGo (phPat PH.hora) v.hora [] 0
        (raciGo (phPat PH.data) v.data [] 0
          (raciGo (phPat PH.nome) v.nome [] 0 (buildT segs)))) = buildR v segs
    rw [raciGo_pass hnd segs [] hs,
      raciGo_pass hdd _ [] (passSubst_ok hn hs),
      raciGo_pass hhd _ [] (passSubst_ok hd (passSubst_ok hn hs)),
      raciGo_pass hpd _ []
        (passSubst_ok hh (passSubst_ok hd (passSubst_ok hn hs))),
      buildT_final]
  · intro t h1 h2 h3 h4
    show raciGo "{procedimentos}".toList v.procedimentos [] 0
      (raciGo "{hora}".toList v.hora [] 0
        (raciGo "{data}".toList v.data [] 0
          (raciGo "{nome}".toList v.nome [] 0 t))) = t
    rw [raciGo_noOcc t [] h1, raciGo_noOcc t [] h2, raciGo_noOcc t [] h3,
      raciGo_noOcc t [] h4]

/-- Witness for C10 amended: a concrete template with a mixed-case
placeholder occurrence renders to the supplied values. -/
theorem claim_C10_amended_witness :
    processTemplate
      (buildT [TSeg.lit "Ola ".toList, TSeg.ph PH.nome "{NOME}".toList,
        TSeg.lit ", dia ".toList, TSeg.ph PH.data "{data}".toList])
      ⟨"Maria".toList, "01/01".toList, "09:00".toList, "Consulta".toList⟩ =
    buildR ⟨"Maria".toList, "01/01".toList, "09:00".toList, "Consulta".toList⟩
      [TSeg.lit "Ola ".toList, TSeg.ph PH.nome "{NOME}".toList,
        TSeg.lit ", dia ".toList, TSeg.ph PH.data "{data}".toList] :=
  (claim_C10_amended
    [TSeg.lit "Ola ".toList, TSeg.ph PH.nome "{NOME}".toList,
      TSeg.lit ", dia ".toList, TSeg.ph PH.data "{data}".toList]
    ⟨"Maria".toList, "01/01".toList, "09:00".toList, "Consulta".toList⟩
    (by decide) (by decide) (by decide) (by decide) (by decide)
    (by decide) (by decide) (by decide) (by decide)).1

end DrgApp
